import Mathlib

set_option linter.unusedVariables false

/-!
Verification development for the batch timestamp-correction tool
`dnpm_fixup.py`.  The Python source is embedded shallowly: JSON documents
become an inductive type, Python dicts become ordered association lists
with insert-or-overwrite semantics, the CSV loader / file classifier /
two record patchers / writer become pure Lean functions, and the
orchestrator `main` becomes a function over an abstract `World` that
supplies the file system's answers (path existence, directory listing,
per-file read results, per-file write success).  A patcher that lets a
Python exception escape is modelled by an explicit `exc` outcome, which
the orchestrator turns into an aborted (crashed) run, as the interpreter
would.  JSON numbers are modelled as arbitrary-precision integers.
-/

/-- JSON documents as produced by `json.load`: objects keep member order
(Python dicts preserve insertion order). -/
inductive Json where
  | null
  | bool (b : Bool)
  | num (n : Int)
  | str (s : String)
  | arr (elems : List Json)
  | obj (members : List (String × Json))

/-- Lookup in an ordered association list; models Python `d.get(k)` /
`d[k]` on a dict whose entries are listed in insertion order. -/
def alGet {α : Type} : List (String × α) → String → Option α
  | [], _ => none
  | (k, v) :: m, key => if key = k then some v else alGet m key

/-- Insert-or-overwrite; models Python `d[k] = v`: an existing key keeps
its position and gets the new value, a new key is appended at the end. -/
def alSet {α : Type} : List (String × α) → String → α → List (String × α)
  | [], key, v => [(key, v)]
  | (k, w) :: m, key, v =>
      if k = key then (k, v) :: m else (k, w) :: alSet m key v

/-- Python truthiness of a JSON value (`if not tan: ...`). -/
def truthy : Json → Bool
  | .null => false
  | .bool b => b
  | .num n => n != 0
  | .str s => s != ""
  | .arr xs => !xs.isEmpty
  | .obj ms => !ms.isEmpty

/-- Whitespace stripped by Python `str.strip()` (ASCII portion). -/
def stripWs (c : Char) : Bool :=
  c = ' ' || c = '\t' || c = '\n' || c = '\r' || c = '\x0b' || c = '\x0c'

/-- `str.strip()` on the underlying character list. -/
def stripChars (l : List Char) : List Char :=
  ((l.dropWhile stripWs).reverse.dropWhile stripWs).reverse

/-- Python `s.strip()`. -/
def pyStrip (s : String) : String := String.mk (stripChars s.data)

/-- Character-list test that `p` starts the list `l`. -/
def pfxMatch : List Char → List Char → Bool
  | [], _ => true
  | _ :: _, [] => false
  | p :: ps, c :: cs => p = c && pfxMatch ps cs

/-- Python `s.startswith(p)`. -/
def strStarts (s p : String) : Bool := pfxMatch p.data s.data

/-- Python `s.endswith(p)`. -/
def strEnds (s p : String) : Bool := pfxMatch p.data.reverse s.data.reverse

/-- Result of opening and iterating the CSV config file with
`csv.reader`: either every row is delivered, or an exception interrupts
the read after some rows were already consumed. -/
inductive CsvRead where
  | ok (rows : List (List String))
  | fail (rowsBefore : List (List String))

/-- One loop iteration of `parse_config_file`: rows with at least two
fields whose first two fields are non-empty after stripping update the
dict, every other row is skipped. -/
def configStep (m : List (String × String)) (row : List String) :
    List (String × String) :=
  match row with
  | t :: d :: _ =>
      let tan := pyStrip t
      let date := pyStrip d
      if tan ≠ "" ∧ date ≠ "" then alSet m tan date else m
  | _ => m

/-- `parse_config_file`: folds the rows into a dict; if any exception is
raised while reading, the `except` branch returns the empty dict,
discarding everything read so far. -/
def parse_config_file : CsvRead → List (String × String)
  | .ok rows => rows.foldl configStep []
  | .fail _ => []

/-- Filename prefix of Kind A (patient record) files. -/
def recordPfx : String := "MVH_MTBPatientRecord_Patient"

/-- Filename prefix of Kind B (submission report) files. -/
def reportPfx : String := "SubmissionReport_Patient"

/-- `get_json_files`: walks the directory listing (name, is-regular-file)
in enumeration order, keeps `.json` regular files, and partitions them by
filename prefix into (patient records, submission reports). -/
def get_json_files : List (String × Bool) → List String × List String
  | [] => ([], [])
  | (name, isFile) :: rest =>
      let (recs, reps) := get_json_files rest
      if !strEnds name ".json" then (recs, reps)
      else if !isFile then (recs, reps)
      else if strStarts name recordPfx then (name :: recs, reps)
      else if strStarts name reportPfx then (recs, name :: reps)
      else (recs, reps)

/-- Outcome of `open` + `json.load` on one input file. -/
inductive ReadResult where
  | unreadable
  | notJson
  | ok (data : Json)

/-- Which stderr diagnostic a patcher printed. -/
inductive Diag where
  | notValidJson
  | readError
  | noTan
  | noId

/-- Result of one patcher call: either an uncaught Python exception
escapes (`exc`), or the function returns, possibly after printing one
diagnostic, with `none` (skip) or `some (tan, date, patched document)`. -/
inductive PRes where
  | exc (msg : String)
  | ret (diag : Option Diag) (res : Option (String × String × Json))

/-- `data.get('metadata', {}).get('transferTAN')` inside
`try ... except (AttributeError, TypeError)`: any failure of the chained
access collapses to `none` (Python `None`). -/
def extractTanA : Json → Option Json
  | .obj dm =>
      match alGet dm "metadata" with
      | some (.obj mm) => alGet mm "transferTAN"
      | some _ => none
      | none => none
  | _ => none

/-- Using the extracted value as a dict key (`tan in tan_date_map`):
strings are looked up, other hashable values never equal a string key,
and lists/dicts raise `TypeError: unhashable type`. -/
def tanKey : Json → Except String (Option String)
  | .str s => .ok (some s)
  | .arr _ => .error "TypeError: unhashable type: 'list'"
  | .obj _ => .error "TypeError: unhashable type: 'dict'"
  | _ => .ok none

/-- `data['submittedAt'] = v` on the parsed document (a dict whenever the
patchers reach this assignment). -/
def setField (data : Json) (key : String) (v : Json) : Json :=
  match data with
  | .obj ms => .obj (alSet ms key v)
  | other => other

/-- `process_patient_record` (Kind A): parse failures and an
unextractable / falsy `metadata.transferTAN` are caught and reported; a
truthy identifier is looked up in the table; on a hit the top-level
`submittedAt` field is set and `(tan, date, document)` returned.  A
truthy unhashable identifier raises an uncaught `TypeError` at the
`in`-check. -/
def process_patient_record (file : ReadResult)
    (tbl : List (String × String)) : PRes :=
  match file with
  | .notJson => .ret (some .notValidJson) none
  | .unreadable => .ret (some .readError) none
  | .ok data =>
      let tan := (extractTanA data).getD .null
      if truthy tan = false then .ret (some .noTan) none
      else
        match tanKey tan with
        | .error m => .exc m
        | .ok none => .ret none none
        | .ok (some s) =>
            match alGet tbl s with
            | none => .ret none none
            | some date =>
                .ret none (some (s, date, setField data "submittedAt" (.str date)))

/-- `process_submission_report` (Kind B): same parse-failure handling,
but `data.get('id')` is called outside any `try`, so a top-level value
that is not an object raises an uncaught `AttributeError`. -/
def process_submission_report (file : ReadResult)
    (tbl : List (String × String)) : PRes :=
  match file with
  | .notJson => .ret (some .notValidJson) none
  | .unreadable => .ret (some .readError) none
  | .ok data =>
      match data with
      | .obj dm =>
          let tan := (alGet dm "id").getD .null
          if truthy tan = false then .ret (some .noId) none
          else
            match tanKey tan with
            | .error m => .exc m
            | .ok none => .ret none none
            | .ok (some s) =>
                match alGet tbl s with
                | none => .ret none none
                | some date =>
                    .ret none (some (s, date, setField (.obj dm) "createdAt" (.str date)))
      | other => .exc "AttributeError: no attribute get"

/-- Decimal digit character (also the low hex digits). -/
def hexCh : Nat → Char
  | 0 => '0' | 1 => '1' | 2 => '2' | 3 => '3' | 4 => '4'
  | 5 => '5' | 6 => '6' | 7 => '7' | 8 => '8' | 9 => '9'
  | 10 => 'a' | 11 => 'b' | 12 => 'c' | 13 => 'd' | 14 => 'e' | _ => 'f'

/-- Decimal value of a digit character, `none` otherwise. -/
def chDigit (c : Char) : Option Nat :=
  if 48 ≤ c.toNat ∧ c.toNat ≤ 57 then some (c.toNat - 48) else none

/-- Hexadecimal value of a hex-digit character (either case), `none`
otherwise. -/
def chHex (c : Char) : Option Nat :=
  if 48 ≤ c.toNat ∧ c.toNat ≤ 57 then some (c.toNat - 48)
  else if 97 ≤ c.toNat ∧ c.toNat ≤ 102 then some (c.toNat - 87)
  else if 65 ≤ c.toNat ∧ c.toNat ≤ 70 then some (c.toNat - 55)
  else none

/-- Decimal digits of `n`, most significant first; fuel-driven so that it
reduces definitionally (fuel `n + 1` always suffices). -/
def natDigsAux : Nat → Nat → List Char
  | 0, _ => []
  | fuel + 1, n =>
      if n < 10 then [hexCh n]
      else natDigsAux fuel (n / 10) ++ [hexCh (n % 10)]

/-- Decimal representation of a natural number, as `repr` prints it. -/
def natDigs (n : Nat) : List Char := natDigsAux (n + 1) n

/-- Decimal representation of a Python int (`json.dump` output). -/
def intChars (n : Int) : List Char :=
  if n < 0 then '-' :: natDigs n.natAbs else natDigs n.natAbs

/-- `n` space characters (the 2-space-per-level indentation). -/
def spaces : Nat → List Char
  | 0 => []
  | n + 1 => ' ' :: spaces n

/-- How `json.dump(..., ensure_ascii=False)` emits one character inside a
string literal: the two-character escapes for quote, backslash and the
common control characters, `\u00XX` for the remaining control characters,
and everything else verbatim. -/
def escChar (c : Char) : List Char :=
  if c = '\"' then ['\\', '\"']
  else if c = '\\' then ['\\', '\\']
  else if c = '\n' then ['\\', 'n']
  else if c = '\t' then ['\\', 't']
  else if c = '\r' then ['\\', 'r']
  else if c = '\x08' then ['\\', 'b']
  else if c = '\x0c' then ['\\', 'f']
  else if c.toNat < 32 then
    ['\\', 'u', '0', '0', hexCh (c.toNat / 16), hexCh (c.toNat % 16)]
  else [c]

/-- Escape a whole string body. -/
def escStr : List Char → List Char
  | [] => []
  | c :: cs => escChar c ++ escStr cs

mutual

/-- `json.dump(v, f, indent=2, ensure_ascii=False)` at indentation level
`ind` (in spaces): Python's exact layout, with item separator `,\n`,
key separator `: `, and empty containers rendered inline. -/
def dumpVal : Nat → Json → List Char
  | _, .null => ['n', 'u', 'l', 'l']
  | _, .bool true => ['t', 'r', 'u', 'e']
  | _, .bool false => ['f', 'a', 'l', 's', 'e']
  | _, .num n => intChars n
  | _, .str s => '\"' :: (escStr s.data ++ ['\"'])
  | _, .arr [] => ['[', ']']
  | ind, .arr (x :: xs) =>
      '[' :: '\n' :: (spaces (ind + 2) ++ dumpVal (ind + 2) x ++
        dumpElems (ind + 2) xs ++ '\n' :: (spaces ind ++ [']']))
  | _, .obj [] => ['\x7b', '\x7d']
  | ind, .obj (p :: ps) =>
      '\x7b' :: '\n' :: (spaces (ind + 2) ++ dumpPair (ind + 2) p ++
        dumpMembers (ind + 2) ps ++ '\n' :: (spaces ind ++ ['\x7d']))

/-- One `"key": value` member. -/
def dumpPair : Nat → String × Json → List Char
  | ind, (k, v) => '\"' :: (escStr k.data ++ '\"' :: ':' :: ' ' :: dumpVal ind v)

/-- The remaining array elements, each preceded by `,\n` + indentation. -/
def dumpElems : Nat → List Json → List Char
  | _, [] => []
  | ind, x :: xs => ',' :: '\n' :: (spaces ind ++ dumpVal ind x ++ dumpElems ind xs)

/-- The remaining object members, each preceded by `,\n` + indentation. -/
def dumpMembers : Nat → List (String × Json) → List Char
  | _, [] => []
  | ind, p :: ps => ',' :: '\n' :: (spaces ind ++ dumpPair ind p ++ dumpMembers ind ps)

end

/-- `write_output_file`: on a successful write the serialized bytes land
in the output file and the function returns `True`; any write failure is
caught, reported, and the function returns `False`.  `some bytes` models
the successful case, `none` the caught failure. -/
def write_output_file (fsOk : Bool) (data : Json) : Option (List Char) :=
  if fsOk then some (dumpVal 0 data) else none

/-- `validate_paths`: config file, input dir and output dir must exist. -/
def validate_paths (configOk inDirOk outDirOk : Bool) : Bool :=
  configOk && inDirOk && outDirOk

/-- Everything the file system contributes to one run. -/
structure World where
  configOk : Bool
  inDirOk : Bool
  outDirOk : Bool
  configRead : CsvRead
  listing : List (String × Bool)
  readFile : String → ReadResult
  writeOk : String → Bool

/-- Which kind of file a processing step handled. -/
inductive RecKind where
  | A
  | B

/-- What happened to one input file inside the processing loop. -/
inductive StepOutcome where
  | skipped (diag : Option Diag)
  | written (tan date : String) (doc : Json)
  | writeFailed (tan date : String)

/-- One iteration of a processing loop. -/
structure Step where
  kind : RecKind
  name : String
  outcome : StepOutcome

/-- One processing loop of `main` over the files of one kind: returns the
steps performed, the increments to `modified_count` and `error_count`,
and—if a patcher raised—the file and message of the uncaught exception
that aborted the loop (and the whole program). -/
def runKind (k : RecKind) (patch : ReadResult → List (String × String) → PRes)
    (w : World) (tbl : List (String × String)) :
    List String → List Step × Nat × Nat × Option (String × String)
  | [] => ([], 0, 0, none)
  | f :: rest =>
      match patch (w.readFile f) tbl with
      | .exc m => ([], 0, 0, some (f, m))
      | .ret d none =>
          let (steps, mc, ec, cr) := runKind k patch w tbl rest
          (⟨k, f, .skipped d⟩ :: steps, mc, ec, cr)
      | .ret _ (some (tan, date, doc)) =>
          match write_output_file (w.writeOk f) doc with
          | some _ =>
              let (steps, mc, ec, cr) := runKind k patch w tbl rest
              (⟨k, f, .written tan date doc⟩ :: steps, mc + 1, ec, cr)
          | none =>
              let (steps, mc, ec, cr) := runKind k patch w tbl rest
              (⟨k, f, .writeFailed tan date⟩ :: steps, mc, ec + 1, cr)

/-- How one run ended: `fatal` for the `sys.exit(1)` precondition paths,
`crashed` for an uncaught patcher exception (interpreter aborts with a
traceback, the remaining batch unprocessed), `done` for a normal pass
with its final modified/error counters. -/
inductive RunResult where
  | fatal
  | crashed (steps : List Step) (file : String) (msg : String)
  | done (steps : List Step) (modified errors : Nat)

/-- The `main` entry point: validate the three paths, load the table (empty table is
fatal), classify the listing, process every patient-record file, then
every submission-report file. -/
def mainRun (w : World) : RunResult :=
  if validate_paths w.configOk w.inDirOk w.outDirOk = false then .fatal
  else
    let tbl := parse_config_file w.configRead
    if tbl.isEmpty then .fatal
    else
      let (recFiles, repFiles) := get_json_files w.listing
      match runKind .A process_patient_record w tbl recFiles with
      | (aSteps, _, _, some (f, m)) => .crashed aSteps f m
      | (aSteps, amc, aec, none) =>
          match runKind .B process_submission_report w tbl repFiles with
          | (bSteps, _, _, some (f, m)) => .crashed (aSteps ++ bSteps) f m
          | (bSteps, bmc, bec, none) =>
              .done (aSteps ++ bSteps) (amc + bmc) (aec + bec)

/-- Process exit status of a run: `sys.exit(1)` on fatal preconditions,
exit code 1 for an uncaught exception, 0 for a completed batch. -/
def exitCode : RunResult → Nat
  | .fatal => 1
  | .crashed _ _ _ => 1
  | .done _ _ _ => 0

/-- The steps a run performed. -/
def stepsOf : RunResult → List Step
  | .fatal => []
  | .crashed s _ _ => s
  | .done s _ _ => s

/-- The name of a step's file, if the step wrote an output file. -/
def stepWritten (s : Step) : Option String :=
  match s.outcome with
  | .written _ _ _ => some s.name
  | _ => none

/-- Names of the files actually written to the output directory. -/
def writtenNames (r : RunResult) : List String :=
  (stepsOf r).filterMap stepWritten

/-- The correction a patcher produces for one file (none on skip or on an
uncaught exception). -/
def fixOf (patch : ReadResult → List (String × String) → PRes) (w : World)
    (tbl : List (String × String)) (f : String) :
    Option (String × String × Json) :=
  match patch (w.readFile f) tbl with
  | .ret _ r => r
  | .exc _ => none

/-- The step `main` performs for one file of kind `k`, assuming the
patcher returns (used to characterise completed runs). -/
def stepOf (k : RecKind) (patch : ReadResult → List (String × String) → PRes)
    (w : World) (tbl : List (String × String)) (f : String) : Step :=
  match patch (w.readFile f) tbl with
  | .exc _ => ⟨k, f, .skipped none⟩
  | .ret d none => ⟨k, f, .skipped d⟩
  | .ret _ (some (tan, date, doc)) =>
      if (write_output_file (w.writeOk f) doc).isSome then
        ⟨k, f, .written tan date doc⟩
      else
        ⟨k, f, .writeFailed tan date⟩

/-- Whitespace accepted between JSON tokens by `json.load`. -/
def jsWs (c : Char) : Bool :=
  c = ' ' || c = '\t' || c = '\n' || c = '\r'

/-- Skip inter-token whitespace. -/
def skipWs : List Char → List Char
  | [] => []
  | c :: cs => if jsWs c then skipWs cs else c :: cs

/-- Consume a maximal run of decimal digits, accumulating their value. -/
def parseDigits : Nat → List Char → Nat × List Char
  | acc, [] => (acc, [])
  | acc, c :: cs =>
      match chDigit c with
      | some d => parseDigits (acc * 10 + d) cs
      | none => (acc, c :: cs)

/-- Parse an unsigned JSON number.  The scanner would continue into a
fraction or exponent; floating-point values are outside this model, so a
following `.`/`e`/`E` is treated as a parse failure rather than a float. -/
def parseNum (l : List Char) : Option (Nat × List Char) :=
  match l with
  | [] => none
  | c :: _ =>
      match chDigit c with
      | none => none
      | some _ =>
          let (n, rest) := parseDigits 0 l
          match rest with
          | [] => some (n, [])
          | r :: _ =>
              if r = '.' || r = 'e' || r = 'E' then none else some (n, rest)

/-- Scan a JSON string body (opening quote already consumed): literal
characters up to the closing quote, backslash escapes (including
`\uXXXX`), and—as in strict-mode `json.load`—a raw control character is
rejected. -/
def parseStr : List Char → Option (List Char × List Char)
  | [] => none
  | c :: cs =>
      if c = '\"' then some ([], cs)
      else if c = '\\' then
        match cs with
        | [] => none
        | e :: cs2 =>
            if e = '\"' then (parseStr cs2).map fun p => ('\"' :: p.1, p.2)
            else if e = '\\' then (parseStr cs2).map fun p => ('\\' :: p.1, p.2)
            else if e = '/' then (parseStr cs2).map fun p => ('/' :: p.1, p.2)
            else if e = 'b' then (parseStr cs2).map fun p => ('\x08' :: p.1, p.2)
            else if e = 'f' then (parseStr cs2).map fun p => ('\x0c' :: p.1, p.2)
            else if e = 'n' then (parseStr cs2).map fun p => ('\n' :: p.1, p.2)
            else if e = 'r' then (parseStr cs2).map fun p => ('\r' :: p.1, p.2)
            else if e = 't' then (parseStr cs2).map fun p => ('\t' :: p.1, p.2)
            else if e = 'u' then
              match cs2 with
              | h1 :: h2 :: h3 :: h4 :: cs6 =>
                  match chHex h1, chHex h2, chHex h3, chHex h4 with
                  | some a, some b, some c3, some d =>
                      (parseStr cs6).map fun p =>
                        (Char.ofNat (((a * 16 + b) * 16 + c3) * 16 + d) :: p.1, p.2)
                  | _, _, _, _ => none
              | _ => none
            else none
      else if c.toNat < 32 then none
      else (parseStr cs).map fun p => (c :: p.1, p.2)

/-- Assemble parsed members into a dict, as Python does pair by pair:
duplicate keys overwrite in place, last occurrence wins. -/
def buildObj (ps : List (String × Json)) : List (String × Json) :=
  ps.foldl (fun m p => alSet m p.1 p.2) []

mutual

/-- Recursive-descent JSON value parser, the shallow model of
`json.load`'s scanner; `fuel` bounds the nesting work and exceeds the
need whenever it is at least the node count of the value parsed. -/
def parseVal : Nat → List Char → Option (Json × List Char)
  | 0, _ => none
  | fuel + 1, input =>
      match skipWs input with
      | [] => none
      | c :: rest =>
          if c = 'n' then
            match rest with
            | 'u' :: 'l' :: 'l' :: r => some (.null, r)
            | _ => none
          else if c = 't' then
            match rest with
            | 'r' :: 'u' :: 'e' :: r => some (.bool true, r)
            | _ => none
          else if c = 'f' then
            match rest with
            | 'a' :: 'l' :: 's' :: 'e' :: r => some (.bool false, r)
            | _ => none
          else if c = '\"' then
            match parseStr rest with
            | some (cs, r) => some (.str (String.mk cs), r)
            | none => none
          else if c = '-' then
            match parseNum rest with
            | some (n, r) => some (.num (-(n : Int)), r)
            | none => none
          else if c = '[' then
            match skipWs rest with
            | [] => none
            | c2 :: r2 =>
                if c2 = ']' then some (.arr [], r2)
                else
                  match parseItems fuel rest with
                  | some (vs, r3) => some (.arr vs, r3)
                  | none => none
          else if c = '\x7b' then
            match skipWs rest with
            | [] => none
            | c2 :: r2 =>
                if c2 = '\x7d' then some (.obj [], r2)
                else
                  match parsePairs fuel rest with
                  | some (ps, r3) => some (.obj (buildObj ps), r3)
                  | none => none
          else
            match chDigit c with
            | some _ =>
                match parseNum (c :: rest) with
                | some (n, r) => some (.num (n : Int), r)
                | none => none
            | none => none

/-- Parse one or more comma-separated array elements up to `]`. -/
def parseItems : Nat → List Char → Option (List Json × List Char)
  | 0, _ => none
  | fuel + 1, input =>
      match parseVal fuel input with
      | none => none
      | some (v, r) =>
          match skipWs r with
          | [] => none
          | c :: r2 =>
              if c = ',' then
                match parseItems fuel r2 with
                | some (vs, r3) => some (v :: vs, r3)
                | none => none
              else if c = ']' then some ([v], r2)
              else none

/-- Parse one or more `"key": value` members up to the closing brace. -/
def parsePairs : Nat → List Char → Option (List (String × Json) × List Char)
  | 0, _ => none
  | fuel + 1, input =>
      match skipWs input with
      | [] => none
      | c :: rest =>
          if c = '\"' then
            match parseStr rest with
            | none => none
            | some (kcs, r1) =>
                match skipWs r1 with
                | [] => none
                | c2 :: r2 =>
                    if c2 = ':' then
                      match parseVal fuel r2 with
                      | none => none
                      | some (v, r3) =>
                          match skipWs r3 with
                          | [] => none
                          | c4 :: r4 =>
                              if c4 = ',' then
                                match parsePairs fuel r4 with
                                | some (ps, r5) => some ((String.mk kcs, v) :: ps, r5)
                                | none => none
                              else if c4 = '\x7d' then some ([(String.mk kcs, v)], r4)
                              else none
                    else none
          else none

end

/-- `json.load` on whole file contents: parse one value, then require
only trailing whitespace. -/
def parseTop (bytes : List Char) : Option Json :=
  match parseVal (bytes.length + 1) bytes with
  | some (v, rest) => if skipWs rest = [] then some v else none
  | none => none

/-- Keys of an object member list. -/
def keysOf (ms : List (String × Json)) : List String := ms.map Prod.fst

/-- Membership of a key in a key list. -/
def keyIn (k : String) : List String → Bool
  | [] => false
  | k' :: ks => k = k' || keyIn k ks

/-- No key occurs twice. -/
def nodupKeys : List String → Bool
  | [] => true
  | k :: ks => !keyIn k ks && nodupKeys ks

mutual

/-- Well-formed documents: every object node has pairwise distinct keys.
Documents coming out of `json.load` always satisfy this, since a Python
dict cannot hold a key twice. -/
def wfV : Json → Bool
  | .null => true
  | .bool _ => true
  | .num _ => true
  | .str _ => true
  | .arr xs => wfL xs
  | .obj ms => nodupKeys (keysOf ms) && wfM ms

/-- All array elements well-formed. -/
def wfL : List Json → Bool
  | [] => true
  | x :: xs => wfV x && wfL xs

/-- All member values well-formed. -/
def wfM : List (String × Json) → Bool
  | [] => true
  | p :: ps => wfV p.2 && wfM ps

end

mutual

/-- Node-count measure used as parser fuel bound. -/
def jsizeV : Json → Nat
  | .null => 1
  | .bool _ => 1
  | .num _ => 1
  | .str _ => 1
  | .arr xs => 1 + jsizeL xs
  | .obj ms => 1 + jsizeM ms

/-- Fuel bound for an element list. -/
def jsizeL : List Json → Nat
  | [] => 1
  | x :: xs => 1 + jsizeV x + jsizeL xs

/-- Fuel bound for a member list. -/
def jsizeM : List (String × Json) → Nat
  | [] => 1
  | p :: ps => 1 + jsizeV p.2 + jsizeM ps

end

/-- All characters are inter-token whitespace. -/
def allWsL : List Char → Bool
  | [] => true
  | c :: cs => jsWs c && allWsL cs

/-- A continuation in front of which a serialized number stops cleanly:
empty, or headed by something that is neither a digit nor `.`/`e`/`E`. -/
def stopOK : List Char → Bool
  | [] => true
  | c :: _ => (chDigit c).isNone && !(c = '.') && !(c = 'e') && !(c = 'E')

/-- The contribution of one CSV row to the table, per the loader's rules:
`some (trimmed id, trimmed timestamp)` when the row has at least two
fields and both trim to non-empty strings, `none` otherwise. -/
def rowEntry : List String → Option (String × String)
  | t :: d :: _ =>
      let tan := pyStrip t
      let date := pyStrip d
      if tan ≠ "" ∧ date ≠ "" then some (tan, date) else none
  | _ => none

/-- Last-occurrence-wins lookup in a plain entry list: the value of the
last entry carrying the key, if any. -/
def lastWins : List (String × String) → String → Option String
  | [], _ => none
  | (t, d) :: rest, k =>
      match lastWins rest k with
      | some d' => some d'
      | none => if k = t then some d else none

/-- All characters are decimal digits. -/
def allDigits : List Char → Bool
  | [] => true
  | c :: cs => (chDigit c).isSome && allDigits cs

/-- The characters a serialized JSON value can start with. -/
def leadOK (c : Char) : Bool :=
  c = 'n' || c = 't' || c = 'f' || c = '\"' || c = '-' || c = '[' ||
    c = '\x7b' || (chDigit c).isSome

/-- A listing exercising every classifier branch. -/
def demoListing : List (String × Bool) :=
  [("MVH_MTBPatientRecord_Patient_1.json", true),
   ("SubmissionReport_Patient_2.json", true),
   ("MVH_MTBPatientRecord_Patient_3.txt", true),
   ("MVH_MTBPatientRecord_Patient_4.json", false),
   ("notes.json", true)]

/-- Kind A document used to witness the frame property: identifier in
the metadata object, a stale `submittedAt`, and an unrelated field. -/
def dmEx : List (String × Json) :=
  [("metadata", .obj [("transferTAN", .str "T")]),
   ("submittedAt", .str "2020-01-01T00:00:00.000000000"),
   ("x", .num 5)]

/-- Correction table used by several witnesses. -/
def tblEx : List (String × String) :=
  [("T", "2025-10-15T14:30:00.000000000")]

/-- Well-formed document exercising every serializer branch: nested
object, array, escapes, control and non-ASCII characters, negative and
zero numbers, empty containers and empty string. -/
def vEx8 : Json :=
  .obj [("metadata", .obj [("transferTAN", .str "T\n\x01ü")]),
        ("submittedAt", .str "2020-01-01"),
        ("n", .num (-1507)), ("z", .num 0),
        ("arr", .arr [.null, .bool true, .bool false, .arr [], .obj [], .str ""]),
        ("esc", .str "a\"b\\c\td")]

/-- World whose single Kind B input holds a top-level JSON array: the
patcher raises an uncaught `AttributeError`, so the second (well-formed)
report is never processed. -/
def wAbort : World where
  configOk := true
  inDirOk := true
  outDirOk := true
  configRead := .ok [["T", "D"]]
  listing := [("SubmissionReport_Patient_bad.json", true),
              ("SubmissionReport_Patient_good.json", true)]
  readFile := fun f =>
    if f = "SubmissionReport_Patient_bad.json" then .ok (.arr [])
    else .ok (.obj [("id", .str "T")])
  writeOk := fun _ => true

/-- World with all preconditions satisfied and a non-empty table, whose
only input file makes the Kind B patcher raise. -/
def wCrash : World where
  configOk := true
  inDirOk := true
  outDirOk := true
  configRead := .ok [["T", "D"]]
  listing := [("SubmissionReport_Patient_bad.json", true)]
  readFile := fun _ => .ok (.arr [])
  writeOk := fun _ => true

/-- World whose only input file parses, matches the table, but fails to
write: the batch completes with one error and exit code 0. -/
def wErr : World where
  configOk := true
  inDirOk := true
  outDirOk := true
  configRead := .ok [["T", "D"]]
  listing := [("SubmissionReport_Patient_1.json", true)]
  readFile := fun _ => .ok (.obj [("id", .str "T")])
  writeOk := fun _ => false

/-- World whose single Kind A record matches the table but whose write
fails: the identifier is in the table, yet nothing is written. -/
def w2 : World where
  configOk := true
  inDirOk := true
  outDirOk := true
  configRead := .ok [["T", "D"]]
  listing := [("MVH_MTBPatientRecord_Patient_1.json", true)]
  readFile := fun _ => .ok (.obj [("metadata", .obj [("transferTAN", .str "T")])])
  writeOk := fun _ => false

/-- Same as `w2` but with a succeeding write. -/
def w2b : World where
  configOk := true
  inDirOk := true
  outDirOk := true
  configRead := .ok [["T", "D"]]
  listing := [("MVH_MTBPatientRecord_Patient_1.json", true)]
  readFile := fun _ => .ok (.obj [("metadata", .obj [("transferTAN", .str "T")])])
  writeOk := fun _ => true

/-- World with one Kind A file (identifier absent from the table, hence
skipped) and one matching Kind B file (patched and written). -/
def w7 : World where
  configOk := true
  inDirOk := true
  outDirOk := true
  configRead := .ok [["T", "D"]]
  listing := [("MVH_MTBPatientRecord_Patient_a.json", true),
              ("SubmissionReport_Patient_b.json", true)]
  readFile := fun f =>
    if f = "MVH_MTBPatientRecord_Patient_a.json" then
      .ok (.obj [("metadata", .obj [("transferTAN", .str "X")])])
    else .ok (.obj [("id", .str "T")])
  writeOk := fun _ => true

/-- World whose config read fails mid-file after a valid row was already
consumed. -/
def w9 : World where
  configOk := true
  inDirOk := true
  outDirOk := true
  configRead := .fail [[" T ", " D "]]
  listing := []
  readFile := fun _ => .unreadable
  writeOk := fun _ => true

/-- World whose Kind A record carries a zero `transferTAN` and whose
Kind B record carries an empty `id`: both falsy identifiers. -/
def w10 : World where
  configOk := true
  inDirOk := true
  outDirOk := true
  configRead := .ok [["T", "D"]]
  listing := [("MVH_MTBPatientRecord_Patient_10.json", true),
              ("SubmissionReport_Patient_10.json", true)]
  readFile := fun f =>
    if f = "MVH_MTBPatientRecord_Patient_10.json" then
      .ok (.obj [("metadata", .obj [("transferTAN", .num 0)])])
    else .ok (.obj [("id", .str "")])
  writeOk := fun _ => true

theorem alGet_alSet {α : Type} (m : List (String × α)) (k : String) (v : α)
    (k' : String) :
    alGet (alSet m k v) k' = if k' = k then some v else alGet m k' := by
  induction m with
  | nil => simp [alSet, alGet]
  | cons p m ih =>
      obtain ⟨q, w⟩ := p
      by_cases hqk : q = k
      · subst hqk
        by_cases hk : k' = q <;> simp [alSet, alGet, hk]
      · by_cases hk' : k' = q
        · have hkk : ¬k' = k := by rw [hk']; exact hqk
          simp [alSet, alGet, hqk, hk', hkk]
        · simp [alSet, alGet, hqk, hk', ih]


theorem configStep_rowEntry (m : List (String × String)) (r : List String) :
    configStep m r = (match rowEntry r with
      | some (t, d) => alSet m t d
      | none => m) := by
  match r with
  | [] => rfl
  | [t] => rfl
  | t :: d :: rest =>
      by_cases h : pyStrip t ≠ "" ∧ pyStrip d ≠ "" <;>
        simp [configStep, rowEntry, h]

theorem alGet_foldl_configStep (rows : List (List String))
    (m : List (String × String)) (k : String) :
    alGet (rows.foldl configStep m) k =
      (match lastWins (rows.filterMap rowEntry) k with
       | some d => some d
       | none => alGet m k) := by
  induction rows generalizing m with
  | nil => simp [lastWins]
  | cons r rows ih =>
      rw [List.foldl_cons, configStep_rowEntry, List.filterMap_cons]
      cases hre : rowEntry r with
      | none => simpa using ih m
      | some td =>
          obtain ⟨t, d⟩ := td
          rw [ih (alSet m t d)]
          simp only [lastWins]
          cases lastWins (rows.filterMap rowEntry) k with
          | some d' => rfl
          | none =>
              rw [alGet_alSet]
              by_cases hk : k = t <;> simp [hk]

/-- C4: for a readable table, a lookup in the loaded table returns
exactly the timestamp of the last row whose first two fields trim to a
non-empty identifier equal to the key and a non-empty timestamp; rows
with fewer than two fields or an empty trimmed field contribute nothing
and do not disturb later rows. -/
theorem C4_loader_semantics (rows : List (List String)) (k : String) :
    alGet (parse_config_file (.ok rows)) k =
      lastWins (rows.filterMap rowEntry) k := by
  have h := alGet_foldl_configStep rows [] k
  simp only [parse_config_file] at *
  rw [h]
  cases lastWins (rows.filterMap rowEntry) k <;> simp [alGet]

theorem pfxMatch_head (p : Char) (ps : List Char) (l : List Char)
    (h : pfxMatch (p :: ps) l = true) : ∃ t, l = p :: t := by
  cases l with
  | nil => simp [pfxMatch] at h
  | cons c cs =>
      simp only [pfxMatch, Bool.and_eq_true, decide_eq_true_eq] at h
      exact ⟨cs, by rw [h.1]⟩

theorem starts_record_not_report (s : String)
    (h : strStarts s recordPfx = true) : strStarts s reportPfx = false := by
  have hr : recordPfx.data = 'M' :: "VH_MTBPatientRecord_Patient".data := rfl
  have hp : reportPfx.data = 'S' :: "ubmissionReport_Patient".data := rfl
  unfold strStarts at h ⊢
  rw [hr] at h
  rw [hp]
  obtain ⟨t, ht⟩ := pfxMatch_head _ _ _ h
  rw [ht]
  simp [pfxMatch]

theorem get_json_files_eq (l : List (String × Bool)) :
    get_json_files l =
      ((l.filter fun e => e.2 && strEnds e.1 ".json" && strStarts e.1 recordPfx).map Prod.fst,
       (l.filter fun e => e.2 && strEnds e.1 ".json" && strStarts e.1 reportPfx).map Prod.fst) := by
  induction l with
  | nil => rfl
  | cons e l ih =>
      obtain ⟨name, isF⟩ := e
      simp only [get_json_files, ih]
      cases isF with
      | false => simp [List.filter_cons]
      | true =>
          by_cases h1 : strEnds name ".json"
          · by_cases h3 : strStarts name recordPfx
            · have h4 := starts_record_not_report name h3
              simp [List.filter_cons, h1, h3, h4]
            · by_cases h4 : strStarts name reportPfx <;>
                simp [List.filter_cons, h1, h3, h4]
          · simp [List.filter_cons, h1]

/-- C6: the classifier keeps exactly the regular `.json` files, sending
those with the patient-record prefix to the first list and those with
the submission-report prefix to the second, ignoring everything else;
both lists preserve listing order (they are filters of the listing), and
no name lands in both lists. -/
theorem C6_classifier (l : List (String × Bool)) :
    (get_json_files l).1 =
      (l.filter fun e => e.2 && strEnds e.1 ".json" && strStarts e.1 recordPfx).map Prod.fst ∧
    (get_json_files l).2 =
      (l.filter fun e => e.2 && strEnds e.1 ".json" && strStarts e.1 reportPfx).map Prod.fst ∧
    ∀ f, f ∈ (get_json_files l).1 → f ∉ (get_json_files l).2 := by
  refine ⟨by rw [get_json_files_eq], by rw [get_json_files_eq], ?_⟩
  intro f hf1 hf2
  rw [get_json_files_eq] at hf1 hf2
  simp only [List.mem_map, List.mem_filter, Bool.and_eq_true] at hf1 hf2
  obtain ⟨e1, ⟨_, ⟨_, hA⟩⟩, he1⟩ := hf1
  obtain ⟨e2, ⟨_, ⟨_, hB⟩⟩, he2⟩ := hf2
  rw [he1] at hA
  rw [he2] at hB
  rw [starts_record_not_report f hA] at hB
  exact Bool.false_ne_true hB

/-- C6 witness: on a concrete listing exercising every branch, a name
classified as a patient record is not in the submission-report list. -/
theorem C6_witness :
    "MVH_MTBPatientRecord_Patient_1.json" ∉ (get_json_files demoListing).2 :=
  (C6_classifier demoListing).2.2 _ (by decide)

/-- C3: for a Kind A document whose `metadata.transferTAN` is a
non-empty string with a table entry, the patcher returns exactly the
input document with the top-level `submittedAt` entry set to the table's
timestamp (created if absent): the patched document agrees with the
input on every other top-level field. -/
theorem C3_kindA_frame (tbl : List (String × String))
    (dm mm : List (String × Json)) (s d : String)
    (h1 : alGet dm "metadata" = some (.obj mm))
    (h2 : alGet mm "transferTAN" = some (.str s))
    (h3 : s ≠ "")
    (h4 : alGet tbl s = some d) :
    process_patient_record (.ok (.obj dm)) tbl =
      .ret none (some (s, d, .obj (alSet dm "submittedAt" (.str d)))) ∧
    alGet (alSet dm "submittedAt" (Json.str d)) "submittedAt" = some (.str d) ∧
    ∀ k, k ≠ "submittedAt" →
      alGet (alSet dm "submittedAt" (Json.str d)) k = alGet dm k := by
  refine ⟨?_, ?_, ?_⟩
  · simp [process_patient_record, extractTanA, h1, h2, truthy, h3, tanKey,
      h4, setField]
  · simp [alGet_alSet]
  · intro k hk
    simp [alGet_alSet, hk]

/-- C3 witness: the frame theorem at a concrete record and table. -/
theorem C3_witness :
    process_patient_record (.ok (.obj dmEx)) tblEx =
      .ret none (some ("T", "2025-10-15T14:30:00.000000000",
        .obj (alSet dmEx "submittedAt" (.str "2025-10-15T14:30:00.000000000")))) ∧
    alGet (alSet dmEx "submittedAt" (Json.str "2025-10-15T14:30:00.000000000"))
        "submittedAt" = some (.str "2025-10-15T14:30:00.000000000") ∧
    alGet (alSet dmEx "submittedAt" (Json.str "2025-10-15T14:30:00.000000000"))
        "x" = alGet dmEx "x" :=
  ⟨(C3_kindA_frame tblEx dmEx [("transferTAN", .str "T")] "T"
      "2025-10-15T14:30:00.000000000" rfl rfl (by decide) rfl).1,
   (C3_kindA_frame tblEx dmEx [("transferTAN", .str "T")] "T"
      "2025-10-15T14:30:00.000000000" rfl rfl (by decide) rfl).2.1,
   (C3_kindA_frame tblEx dmEx [("transferTAN", .str "T")] "T"
      "2025-10-15T14:30:00.000000000" rfl rfl (by decide) rfl).2.2 "x" (by decide)⟩

/-- C10: in both patchers an identifier field that is present but holds
a falsy JSON value (empty string, zero, false, null, empty array or
object — exactly the values with Python truthiness false) takes the same
path as an absent identifier: a warning diagnostic, no correction, and —
in the processing loop — a skipped step, so no output file is produced
for the record. -/
theorem C10_falsy_id (tbl : List (String × String))
    (dm mm dm' : List (String × Json)) (t u : Json)
    (h1 : alGet dm "metadata" = some (.obj mm))
    (h2 : alGet mm "transferTAN" = some t)
    (h3 : truthy t = false)
    (h4 : alGet dm' "id" = some u)
    (h5 : truthy u = false) :
    process_patient_record (.ok (.obj dm)) tbl = .ret (some .noTan) none ∧
    process_submission_report (.ok (.obj dm')) tbl = .ret (some .noId) none ∧
    (∀ w f, w.readFile f = .ok (.obj dm) →
      stepWritten (stepOf .A process_patient_record w tbl f) = none) ∧
    (∀ w f, w.readFile f = .ok (.obj dm') →
      stepWritten (stepOf .B process_submission_report w tbl f) = none) := by
  have hA : process_patient_record (.ok (.obj dm)) tbl =
      .ret (some .noTan) none := by
    simp [process_patient_record, extractTanA, h1, h2, h3]
  have hB : process_submission_report (.ok (.obj dm')) tbl =
      .ret (some .noId) none := by
    simp [process_submission_report, h4, h5]
  refine ⟨hA, hB, ?_, ?_⟩
  · intro w f hrf
    simp [stepOf, stepWritten, hrf, hA]
  · intro w f hrf
    simp [stepOf, stepWritten, hrf, hB]

/-- C10 witness: a present-but-zero `transferTAN` and a present-but-empty
`id` are both warned about and skipped, and in the world `w10` neither
record's step writes an output file. -/
theorem C10_witness :
    process_patient_record
        (.ok (.obj [("metadata", .obj [("transferTAN", .num 0)])])) tblEx =
      .ret (some .noTan) none ∧
    process_submission_report (.ok (.obj [("id", .str "")])) tblEx =
      .ret (some .noId) none ∧
    stepWritten (stepOf .A process_patient_record w10 tblEx
      "MVH_MTBPatientRecord_Patient_10.json") = none ∧
    stepWritten (stepOf .B process_submission_report w10 tblEx
      "SubmissionReport_Patient_10.json") = none :=
  ⟨(C10_falsy_id tblEx [("metadata", .obj [("transferTAN", .num 0)])]
      [("transferTAN", .num 0)] [("id", .str "")] (.num 0) (.str "")
      rfl rfl rfl rfl rfl).1,
   (C10_falsy_id tblEx [("metadata", .obj [("transferTAN", .num 0)])]
      [("transferTAN", .num 0)] [("id", .str "")] (.num 0) (.str "")
      rfl rfl rfl rfl rfl).2.1,
   (C10_falsy_id tblEx [("metadata", .obj [("transferTAN", .num 0)])]
      [("transferTAN", .num 0)] [("id", .str "")] (.num 0) (.str "")
      rfl rfl rfl rfl rfl).2.2.1 w10 "MVH_MTBPatientRecord_Patient_10.json" rfl,
   (C10_falsy_id tblEx [("metadata", .obj [("transferTAN", .num 0)])]
      [("transferTAN", .num 0)] [("id", .str "")] (.num 0) (.str "")
      rfl rfl rfl rfl rfl).2.2.2 w10 "SubmissionReport_Patient_10.json" rfl⟩

/-- C1: the Kind A patcher converts a non-object top-level value into a
warning plus skip, but the Kind B patcher raises an uncaught
`AttributeError` on the same input, and in a full run that exception
aborts the batch before any remaining file is processed (here: zero
steps despite a second, well-formed report in the listing). -/
theorem C1_kindB_nonobject_raises :
    process_patient_record (.ok (.arr [])) [("T", "D")] =
      .ret (some .noTan) none ∧
    process_submission_report (.ok (.arr [])) [("T", "D")] =
      .exc "AttributeError: no attribute get" ∧
    mainRun wAbort = .crashed [] "SubmissionReport_Patient_bad.json"
      "AttributeError: no attribute get" :=
  ⟨rfl, rfl, rfl⟩

/-- C5: a run whose preconditions all hold and whose table is non-empty
still ends with exit status 1 when the Kind B patcher raises (uncaught
exception, interpreter aborts), while a run whose only failure is a
failed write exits 0. -/
theorem C5_uncaught_exception_exit :
    validate_paths wCrash.configOk wCrash.inDirOk wCrash.outDirOk = true ∧
    parse_config_file wCrash.configRead = [("T", "D")] ∧
    exitCode (mainRun wCrash) = 1 ∧
    exitCode (mainRun wErr) = 0 :=
  ⟨rfl, rfl, rfl, rfl⟩

/-- C9: whenever reading the config file raises mid-iteration, the
loader returns the empty table — rows already parsed are discarded — and
the orchestrator, its path checks passing, treats the empty table as
fatal. -/
theorem C9_midread_fatal (w : World) (rows : List (List String))
    (hcr : w.configRead = .fail rows)
    (hv : validate_paths w.configOk w.inDirOk w.outDirOk = true) :
    parse_config_file w.configRead = [] ∧ mainRun w = .fatal := by
  constructor
  · rw [hcr]
    rfl
  · simp [mainRun, hv, hcr, parse_config_file]

/-- C9 witness: a config read that fails after delivering one valid row
still yields the empty table and a fatal run. -/
theorem C9_witness :
    parse_config_file w9.configRead = [] ∧ mainRun w9 = .fatal :=
  C9_midread_fatal w9 [[" T ", " D "]] rfl rfl

theorem stepOf_name (k : RecKind)
    (patch : ReadResult → List (String × String) → PRes) (w : World)
    (tbl : List (String × String)) (f : String) :
    (stepOf k patch w tbl f).name = f := by
  unfold stepOf
  split
  · rfl
  · rfl
  · split <;> rfl

theorem stepOf_kind (k : RecKind)
    (patch : ReadResult → List (String × String) → PRes) (w : World)
    (tbl : List (String × String)) (f : String) :
    (stepOf k patch w tbl f).kind = k := by
  unfold stepOf
  split
  · rfl
  · rfl
  · split <;> rfl

theorem runKind_ok (k : RecKind)
    (patch : ReadResult → List (String × String) → PRes) (w : World)
    (tbl : List (String × String)) (files : List String)
    (steps : List Step) (mc ec : Nat)
    (h : runKind k patch w tbl files = (steps, mc, ec, none)) :
    steps = files.map (stepOf k patch w tbl) := by
  induction files generalizing steps mc ec with
  | nil =>
      simp only [runKind, Prod.mk.injEq] at h
      rw [← h.1]
      rfl
  | cons f rest ih =>
      rw [List.map_cons]
      unfold runKind at h
      cases hp : patch (w.readFile f) tbl with
      | exc m =>
          rw [hp] at h
          simp at h
      | ret d r =>
          cases r with
          | none =>
              rw [hp] at h
              rcases hr : runKind k patch w tbl rest with ⟨s', m', e', c'⟩
              rw [hr] at h
              simp only [Prod.mk.injEq] at h
              obtain ⟨h1, h2, h3, h4⟩ := h
              rw [← h1]
              have hstep : stepOf k patch w tbl f = ⟨k, f, .skipped d⟩ := by
                simp [stepOf, hp]
              rw [hstep, ih s' m' e' (by rw [hr, h4])]
          | some td =>
              obtain ⟨tan, date, doc⟩ := td
              rw [hp] at h
              cases hw : w.writeOk f
              · simp only [write_output_file, hw, if_false, Bool.false_eq_true] at h
                rcases hr : runKind k patch w tbl rest with ⟨s', m', e', c'⟩
                rw [hr] at h
                simp only [Prod.mk.injEq] at h
                obtain ⟨h1, h2, h3, h4⟩ := h
                rw [← h1]
                have hstep : stepOf k patch w tbl f = ⟨k, f, .writeFailed tan date⟩ := by
                  simp [stepOf, hp, write_output_file, hw]
                rw [hstep, ih s' m' e' (by rw [hr, h4])]
              · simp only [write_output_file, hw, if_true] at h
                rcases hr : runKind k patch w tbl rest with ⟨s', m', e', c'⟩
                rw [hr] at h
                simp only [Prod.mk.injEq] at h
                obtain ⟨h1, h2, h3, h4⟩ := h
                rw [← h1]
                have hstep : stepOf k patch w tbl f = ⟨k, f, .written tan date doc⟩ := by
                  simp [stepOf, hp, write_output_file, hw]
                rw [hstep, ih s' m' e' (by rw [hr, h4])]

theorem mainRun_done_steps (w : World) (steps : List Step) (mc ec : Nat)
    (h : mainRun w = .done steps mc ec) :
    steps =
      (get_json_files w.listing).1.map
        (stepOf .A process_patient_record w (parse_config_file w.configRead)) ++
      (get_json_files w.listing).2.map
        (stepOf .B process_submission_report w (parse_config_file w.configRead)) := by
  unfold mainRun at h
  by_cases hv : validate_paths w.configOk w.inDirOk w.outDirOk = false
  · rw [if_pos hv] at h
    exact absurd h (by simp)
  · rw [if_neg hv] at h
    by_cases he : (parse_config_file w.configRead).isEmpty
    · simp only [he, if_true] at h
      exact absurd h (by simp)
    · simp only [he, if_false, Bool.false_eq_true] at h
      rcases hg : get_json_files w.listing with ⟨recs, reps⟩
      rw [hg] at h
      rcases hA : runKind .A process_patient_record w
          (parse_config_file w.configRead) recs with ⟨aS, am, ae, ac⟩
      rw [hA] at h
      cases ac with
      | some p =>
          obtain ⟨f, m⟩ := p
          simp at h
      | none =>
          rcases hB : runKind .B process_submission_report w
              (parse_config_file w.configRead) reps with ⟨bS, bm, be, bc⟩
          rw [hB] at h
          cases bc with
          | some p =>
              obtain ⟨f, m⟩ := p
              simp at h
          | none =>
              simp only [RunResult.done.injEq] at h
              obtain ⟨h1, h2, h3⟩ := h
              rw [← h1, runKind_ok _ _ _ _ _ _ _ _ hA,
                runKind_ok _ _ _ _ _ _ _ _ hB]

theorem runKind_crash (k : RecKind)
    (patch : ReadResult → List (String × String) → PRes) (w : World)
    (tbl : List (String × String)) (files : List String)
    (steps : List Step) (mc ec : Nat) (f m : String)
    (h : runKind k patch w tbl files = (steps, mc, ec, some (f, m))) :
    ∃ j, steps = (files.take j).map (stepOf k patch w tbl) := by
  induction files generalizing steps mc ec with
  | nil => simp [runKind] at h
  | cons g rest ih =>
      unfold runKind at h
      cases hp : patch (w.readFile g) tbl with
      | exc m' =>
          rw [hp] at h
          simp only [Prod.mk.injEq] at h
          exact ⟨0, by rw [← h.1]; rfl⟩
      | ret d r =>
          cases r with
          | none =>
              rw [hp] at h
              rcases hr : runKind k patch w tbl rest with ⟨s', m', e', c'⟩
              rw [hr] at h
              simp only [Prod.mk.injEq] at h
              obtain ⟨h1, h2, h3, h4⟩ := h
              obtain ⟨j, hj⟩ := ih s' m' e' (by rw [hr, h4])
              refine ⟨j + 1, ?_⟩
              rw [← h1, hj, List.take_succ_cons, List.map_cons]
              congr 1
              simp [stepOf, hp]
          | some td =>
              obtain ⟨tan, date, doc⟩ := td
              rw [hp] at h
              cases hw : w.writeOk g
              · simp only [write_output_file, hw, if_false,
                  Bool.false_eq_true] at h
                rcases hr : runKind k patch w tbl rest with ⟨s', m', e', c'⟩
                rw [hr] at h
                simp only [Prod.mk.injEq] at h
                obtain ⟨h1, h2, h3, h4⟩ := h
                obtain ⟨j, hj⟩ := ih s' m' e' (by rw [hr, h4])
                refine ⟨j + 1, ?_⟩
                rw [← h1, hj, List.take_succ_cons, List.map_cons]
                congr 1
                simp [stepOf, hp, write_output_file, hw]
              · simp only [write_output_file, hw, if_true] at h
                rcases hr : runKind k patch w tbl rest with ⟨s', m', e', c'⟩
                rw [hr] at h
                simp only [Prod.mk.injEq] at h
                obtain ⟨h1, h2, h3, h4⟩ := h
                obtain ⟨j, hj⟩ := ih s' m' e' (by rw [hr, h4])
                refine ⟨j + 1, ?_⟩
                rw [← h1, hj, List.take_succ_cons, List.map_cons]
                congr 1
                simp [stepOf, hp, write_output_file, hw]

theorem mainRun_crashed_steps (w : World) (steps : List Step) (f m : String)
    (h : mainRun w = .crashed steps f m) :
    (∃ j, steps = ((get_json_files w.listing).1.take j).map
      (stepOf .A process_patient_record w (parse_config_file w.configRead))) ∨
    (∃ j, steps =
      (get_json_files w.listing).1.map
        (stepOf .A process_patient_record w (parse_config_file w.configRead)) ++
      ((get_json_files w.listing).2.take j).map
        (stepOf .B process_submission_report w (parse_config_file w.configRead))) := by
  unfold mainRun at h
  by_cases hv : validate_paths w.configOk w.inDirOk w.outDirOk = false
  · rw [if_pos hv] at h
    exact absurd h (by simp)
  · rw [if_neg hv] at h
    by_cases he : (parse_config_file w.configRead).isEmpty
    · simp only [he, if_true] at h
      exact absurd h (by simp)
    · simp only [he, if_false, Bool.false_eq_true] at h
      rcases hg : get_json_files w.listing with ⟨recs, reps⟩
      rw [hg] at h
      rcases hA : runKind .A process_patient_record w
          (parse_config_file w.configRead) recs with ⟨aS, am, ae, ac⟩
      rw [hA] at h
      cases ac with
      | some p =>
          obtain ⟨fa, ma⟩ := p
          simp only [RunResult.crashed.injEq] at h
          obtain ⟨h1, h2, h3⟩ := h
          left
          obtain ⟨j, hj⟩ := runKind_crash _ _ _ _ _ _ _ _ _ _ hA
          exact ⟨j, by rw [← h1, hj]⟩
      | none =>
          rcases hB : runKind .B process_submission_report w
              (parse_config_file w.configRead) reps with ⟨bS, bm, be, bc⟩
          rw [hB] at h
          cases bc with
          | some p =>
              obtain ⟨fb, mb⟩ := p
              simp only [RunResult.crashed.injEq] at h
              obtain ⟨h1, h2, h3⟩ := h
              right
              obtain ⟨j, hj⟩ := runKind_crash _ _ _ _ _ _ _ _ _ _ hB
              refine ⟨j, ?_⟩
              rw [← h1, hj, runKind_ok _ _ _ _ _ _ _ _ hA]
          | none => simp at h

/-- C7: in every completed run the step sequence is exactly the Kind A
files in listing order — each patched and, when a correction arose,
written in the same step — followed by the Kind B files in listing
order, so the step names and kinds project to the classifier lists in
order; and in a run aborted by an uncaught exception the steps performed
are a prefix of the Kind A sequence, or the full Kind A sequence
followed by a prefix of the Kind B sequence — never a Kind B step before
every Kind A file was processed. -/
theorem C7_order (w : World) :
    (∀ steps mc ec, mainRun w = .done steps mc ec →
      steps =
        (get_json_files w.listing).1.map
          (stepOf .A process_patient_record w (parse_config_file w.configRead)) ++
        (get_json_files w.listing).2.map
          (stepOf .B process_submission_report w (parse_config_file w.configRead)) ∧
      steps.map Step.name =
        (get_json_files w.listing).1 ++ (get_json_files w.listing).2 ∧
      steps.map Step.kind =
        (get_json_files w.listing).1.map (fun _ => RecKind.A) ++
        (get_json_files w.listing).2.map (fun _ => RecKind.B)) ∧
    (∀ steps f m, mainRun w = .crashed steps f m →
      (∃ j, steps = ((get_json_files w.listing).1.take j).map
        (stepOf .A process_patient_record w (parse_config_file w.configRead))) ∨
      (∃ j, steps =
        (get_json_files w.listing).1.map
          (stepOf .A process_patient_record w (parse_config_file w.configRead)) ++
        ((get_json_files w.listing).2.take j).map
          (stepOf .B process_submission_report w
            (parse_config_file w.configRead)))) := by
  constructor
  · intro steps mc ec h
    have hs := mainRun_done_steps w steps mc ec h
    refine ⟨hs, ?_, ?_⟩ <;> rw [hs] <;>
      simp [List.map_map, Function.comp_def, stepOf_name, stepOf_kind]
  · intro steps f m h
    exact mainRun_crashed_steps w steps f m h

/-- C7 witness: in a concrete completed run with one file of each kind,
the trace names are the Kind A file followed by the Kind B file. -/
theorem C7_witness :
    ([(⟨.A, "MVH_MTBPatientRecord_Patient_a.json", .skipped none⟩ : Step),
      ⟨.B, "SubmissionReport_Patient_b.json",
        .written "T" "D" (.obj [("id", .str "T"), ("createdAt", .str "D")])⟩] :
        List Step).map Step.name =
      (get_json_files w7.listing).1 ++ (get_json_files w7.listing).2 :=
  (((C7_order w7).1 _ 1 0 rfl).2).1

theorem stepWritten_stepOf (k : RecKind)
    (patch : ReadResult → List (String × String) → PRes) (w : World)
    (tbl : List (String × String)) (f : String) :
    stepWritten (stepOf k patch w tbl f) =
      if (fixOf patch w tbl f).isSome && w.writeOk f then some f else none := by
  cases hp : patch (w.readFile f) tbl with
  | exc m => simp [stepOf, fixOf, stepWritten, hp]
  | ret d r =>
      cases r with
      | none => simp [stepOf, fixOf, stepWritten, hp]
      | some td =>
          obtain ⟨tan, date, doc⟩ := td
          cases hw : w.writeOk f <;>
            simp [stepOf, fixOf, stepWritten, hp, write_output_file, hw]

theorem mem_writtenNames_map (k : RecKind)
    (patch : ReadResult → List (String × String) → PRes) (w : World)
    (tbl : List (String × String)) (files : List String) (f : String) :
    f ∈ (files.map (stepOf k patch w tbl)).filterMap stepWritten ↔
      f ∈ files ∧ (fixOf patch w tbl f).isSome = true ∧ w.writeOk f = true := by
  induction files with
  | nil => simp
  | cons g rest ih =>
      rw [List.map_cons, List.filterMap_cons, stepWritten_stepOf]
      by_cases hg : ((fixOf patch w tbl g).isSome && w.writeOk g) = true
      · rw [if_pos hg]
        simp only [List.mem_cons, ih, Bool.and_eq_true] at *
        constructor
        · rintro (rfl | ⟨h1, h2, h3⟩)
          · exact ⟨Or.inl rfl, hg.1, hg.2⟩
          · exact ⟨Or.inr h1, h2, h3⟩
        · rintro ⟨rfl | h1, h2, h3⟩
          · exact Or.inl rfl
          · exact Or.inr ⟨h1, h2, h3⟩
      · rw [if_neg hg, ih]
        constructor
        · rintro ⟨h1, h2, h3⟩
          exact ⟨List.mem_cons_of_mem _ h1, h2, h3⟩
        · rintro ⟨h1, h2, h3⟩
          rcases List.mem_cons.mp h1 with rfl | h1'
          · rw [h2, h3] at hg
            exact absurd rfl hg
          · exact ⟨h1', h2, h3⟩

theorem fixOf_A_lookup (w : World) (tbl : List (String × String)) (f : String)
    (tan date : String) (doc : Json)
    (h : fixOf process_patient_record w tbl f = some (tan, date, doc)) :
    alGet tbl tan = some date := by
  unfold fixOf at h
  cases hf : w.readFile f with
  | unreadable => rw [hf] at h; simp [process_patient_record] at h
  | notJson => rw [hf] at h; simp [process_patient_record] at h
  | ok data =>
      rw [hf] at h
      simp only [process_patient_record] at h
      by_cases ht : truthy ((extractTanA data).getD .null) = false
      · rw [if_pos ht] at h
        simp at h
      · rw [if_neg ht] at h
        cases hk : tanKey ((extractTanA data).getD .null) with
        | error m => rw [hk] at h; simp at h
        | ok o =>
            cases o with
            | none => rw [hk] at h; simp at h
            | some s =>
                rw [hk] at h
                dsimp only at h
                cases hget : alGet tbl s with
                | none => rw [hget] at h; simp at h
                | some d' =>
                    rw [hget] at h
                    simp only [Option.some.injEq, Prod.mk.injEq] at h
                    obtain ⟨h1, h2, h3⟩ := h
                    rw [← h1, ← h2]
                    exact hget

theorem fixOf_B_lookup (w : World) (tbl : List (String × String)) (f : String)
    (tan date : String) (doc : Json)
    (h : fixOf process_submission_report w tbl f = some (tan, date, doc)) :
    alGet tbl tan = some date := by
  unfold fixOf at h
  cases hf : w.readFile f with
  | unreadable => rw [hf] at h; simp [process_submission_report] at h
  | notJson => rw [hf] at h; simp [process_submission_report] at h
  | ok data =>
      rw [hf] at h
      cases data with
      | obj dm =>
          simp only [process_submission_report] at h
          by_cases ht : truthy ((alGet dm "id").getD .null) = false
          · rw [if_pos ht] at h
            simp at h
          · rw [if_neg ht] at h
            cases hk : tanKey ((alGet dm "id").getD .null) with
            | error m => rw [hk] at h; simp at h
            | ok o =>
                cases o with
                | none => rw [hk] at h; simp at h
                | some s =>
                    rw [hk] at h
                    dsimp only at h
                    cases hget : alGet tbl s with
                    | none => rw [hget] at h; simp at h
                    | some d' =>
                        rw [hget] at h
                        simp only [Option.some.injEq, Prod.mk.injEq] at h
                        obtain ⟨h1, h2, h3⟩ := h
                        rw [← h1, ← h2]
                        exact hget
      | null => simp [process_submission_report] at h
      | bool b => simp [process_submission_report] at h
      | num n => simp [process_submission_report] at h
      | str s => simp [process_submission_report] at h
      | arr xs => simp [process_submission_report] at h

/-- C2 (amended): in every run that completes without an uncaught
exception, a file is written to the output directory exactly when it is
classified, its patcher produced a correction (identifier extracted and
found in the table — the last two conjuncts tie the produced correction
to a successful table lookup), and its write succeeded; a record whose
identifier misses the table yields no correction and hence no output. -/
theorem C2_written_iff (w : World) (steps : List Step) (mc ec : Nat)
    (h : mainRun w = .done steps mc ec) (f : String) :
    (f ∈ writtenNames (mainRun w) ↔
      ((f ∈ (get_json_files w.listing).1 ∧
          (fixOf process_patient_record w (parse_config_file w.configRead) f).isSome = true) ∨
        (f ∈ (get_json_files w.listing).2 ∧
          (fixOf process_submission_report w (parse_config_file w.configRead) f).isSome = true)) ∧
        w.writeOk f = true) ∧
    (∀ tan date doc,
        fixOf process_patient_record w (parse_config_file w.configRead) f =
            some (tan, date, doc) →
        alGet (parse_config_file w.configRead) tan = some date) ∧
    (∀ tan date doc,
        fixOf process_submission_report w (parse_config_file w.configRead) f =
            some (tan, date, doc) →
        alGet (parse_config_file w.configRead) tan = some date) := by
  refine ⟨?_, fun tan date doc => fixOf_A_lookup w _ f tan date doc,
    fun tan date doc => fixOf_B_lookup w _ f tan date doc⟩
  have hs := mainRun_done_steps w steps mc ec h
  rw [h]
  unfold writtenNames stepsOf
  rw [hs, List.filterMap_append]
  simp only [List.mem_append, mem_writtenNames_map]
  tauto

/-- C2 counterexample: in the world `w2` the only record's identifier
`T` is found in the correction table and a correction is produced, yet
the write fails, the run completes, and nothing is written — so "written
iff identifier found in the table" fails as stated. -/
theorem C2_cex :
    alGet (parse_config_file w2.configRead) "T" = some "D" ∧
    (fixOf process_patient_record w2 (parse_config_file w2.configRead)
        "MVH_MTBPatientRecord_Patient_1.json").isSome = true ∧
    mainRun w2 = .done
      [⟨.A, "MVH_MTBPatientRecord_Patient_1.json", .writeFailed "T" "D"⟩] 0 1 ∧
    writtenNames (mainRun w2) = [] :=
  ⟨rfl, rfl, rfl, rfl⟩

/-- C2 witness: with the write succeeding, the same record is written. -/
theorem C2_witness :
    "MVH_MTBPatientRecord_Patient_1.json" ∈ writtenNames (mainRun w2b) :=
  ((C2_written_iff w2b _ 1 0 rfl "MVH_MTBPatientRecord_Patient_1.json").1).mpr
    ⟨Or.inl ⟨by decide, rfl⟩, rfl⟩

theorem chDigit_hexCh (d : Nat) (h : d < 10) : chDigit (hexCh d) = some d := by
  interval_cases d <;> rfl

theorem chHex_hexCh (d : Nat) (h : d < 16) : chHex (hexCh d) = some d := by
  interval_cases d <;> rfl

theorem chDigit_lead (c : Char) (d : Nat) (h : chDigit c = some d) :
    jsWs c = false ∧ c ≠ ']' ∧ c ≠ '\x7d' ∧ c ≠ 'n' ∧ c ≠ 't' ∧ c ≠ 'f' ∧
      c ≠ '\"' ∧ c ≠ '-' ∧ c ≠ '[' ∧ c ≠ '\x7b' ∧ c ≠ ',' ∧ c ≠ ':' := by
  refine ⟨?_, ?_, ?_, ?_, ?_, ?_, ?_, ?_, ?_, ?_, ?_, ?_⟩
  · cases hjw : jsWs c
    · rfl
    · simp only [jsWs, Bool.or_eq_true, decide_eq_true_eq] at hjw
      rcases hjw with ((rfl | rfl) | rfl) | rfl <;> simp [chDigit] at h
  all_goals rintro rfl <;> simp [chDigit] at h

theorem allDigits_append (xs ys : List Char) :
    allDigits (xs ++ ys) = (allDigits xs && allDigits ys) := by
  induction xs with
  | nil => simp [allDigits]
  | cons c cs ih => simp [allDigits, ih, Bool.and_assoc]

theorem natDigsAux_spec (fuel : Nat) :
    ∀ n, n < fuel →
      allDigits (natDigsAux fuel n) = true ∧ natDigsAux fuel n ≠ [] ∧
      (natDigsAux fuel n).foldl (fun a c => a * 10 + ((chDigit c).getD 0)) 0 = n := by
  induction fuel with
  | zero => intro n hn; omega
  | succ fuel ih =>
      intro n hn
      by_cases h10 : n < 10
      · simp [natDigsAux, h10, allDigits, chDigit_hexCh n h10]
      · have hdiv : n / 10 < fuel := by omega
        obtain ⟨ha, hne, hv⟩ := ih (n / 10) hdiv
        simp only [natDigsAux, h10, if_false]
        refine ⟨?_, by simp, ?_⟩
        · rw [allDigits_append, ha]
          simp [allDigits, chDigit_hexCh (n % 10) (by omega)]
        · rw [List.foldl_append, hv]
          simp [chDigit_hexCh (n % 10) (by omega)]
          omega

theorem parseDigits_spec (ds : List Char) :
    ∀ acc rest, allDigits ds = true → stopOK rest = true →
      parseDigits acc (ds ++ rest) =
        (ds.foldl (fun a c => a * 10 + ((chDigit c).getD 0)) acc, rest) := by
  induction ds with
  | nil =>
      intro acc rest _ hstop
      cases rest with
      | nil => rfl
      | cons r t =>
          simp only [stopOK, Bool.and_eq_true, Option.isNone_iff_eq_none] at hstop
          simp [parseDigits, hstop.1.1.1]
  | cons d ds ih =>
      intro acc rest hall hstop
      simp only [allDigits, Bool.and_eq_true, Option.isSome_iff_exists] at hall
      obtain ⟨⟨v, hv⟩, hall'⟩ := hall
      simp only [List.cons_append, parseDigits, hv, List.append_eq]
      rw [ih (acc * 10 + v) rest hall' hstop]
      simp [hv]

theorem parseNum_natDigs (n : Nat) (rest : List Char)
    (hstop : stopOK rest = true) : parseNum (natDigs n ++ rest) = some (n, rest) := by
  obtain ⟨ha, hne, hv⟩ := natDigsAux_spec (n + 1) n (by omega)
  have hd : natDigs n = natDigsAux (n + 1) n := rfl
  rw [hd]
  cases hds : natDigsAux (n + 1) n with
  | nil => exact absurd hds hne
  | cons c t =>
      rw [hds] at ha hv
      have hc : (chDigit c).isSome = true := by
        simp only [allDigits, Bool.and_eq_true] at ha
        exact ha.1
      obtain ⟨v, hcv⟩ := Option.isSome_iff_exists.mp hc
      have hpd := parseDigits_spec (c :: t) 0 rest ha hstop
      simp only [parseNum, List.cons_append, hcv]
      rw [show parseDigits 0 (c :: (t ++ rest)) =
        ((c :: t).foldl (fun a c => a * 10 + ((chDigit c).getD 0)) 0, rest) from hpd]
      rw [hv]
      cases rest with
      | nil => rfl
      | cons r rt =>
          simp only [stopOK, Bool.and_eq_true, Bool.not_eq_true',
            decide_eq_false_iff_not] at hstop
          simp [hstop.1.2, hstop.1.1.2, hstop.2]

theorem allWsL_spaces (n : Nat) : allWsL (spaces n) = true := by
  induction n with
  | zero => rfl
  | succ n ih => simp [spaces, allWsL, jsWs, ih]

theorem skipWs_allWs (pre : List Char) :
    ∀ l, allWsL pre = true → skipWs (pre ++ l) = skipWs l := by
  induction pre with
  | nil => intro l _; rfl
  | cons c cs ih =>
      intro l h
      simp only [allWsL, Bool.and_eq_true] at h
      simp [skipWs, h.1, ih l h.2]

theorem skipWs_nonWs (c : Char) (l : List Char) (h : jsWs c = false) :
    skipWs (c :: l) = c :: l := by
  simp [skipWs, h]

theorem parseStr_escStr (l : List Char) :
    ∀ rest, parseStr (escStr l ++ '\"' :: rest) = some (l, rest) := by
  induction l with
  | nil =>
      intro rest
      have h0 : escStr [] ++ '\"' :: rest = '\"' :: rest := rfl
      rw [h0, parseStr.eq_def]
      simp
  | cons c cs ih =>
      intro rest
      simp only [escStr, List.append_assoc]
      by_cases h1 : c = '\"'
      · subst h1
        rw [escChar, parseStr.eq_def]
        simp [ih]
      · by_cases h2 : c = '\\'
        · subst h2
          rw [escChar, parseStr.eq_def]
          simp [ih]
        · by_cases h3 : c = '\n'
          · subst h3
            rw [escChar, parseStr.eq_def]
            simp [ih]
          · by_cases h4 : c = '\t'
            · subst h4
              rw [escChar, parseStr.eq_def]
              simp [ih]
            · by_cases h5 : c = '\r'
              · subst h5
                rw [escChar, parseStr.eq_def]
                simp [ih]
              · by_cases h6 : c = '\x08'
                · subst h6
                  rw [escChar, parseStr.eq_def]
                  simp [ih]
                · by_cases h7 : c = '\x0c'
                  · subst h7
                    rw [escChar, parseStr.eq_def]
                    simp [ih]
                  · by_cases h8 : c.toNat < 32
                    · have hhi : c.toNat / 16 < 16 := by omega
                      have hlo : c.toNat % 16 < 16 := by omega
                      rw [escChar]
                      simp only [h1, h2, h3, h4, h5, h6, h7, h8, if_false,
                        if_true, List.cons_append, List.nil_append]
                      rw [parseStr.eq_def]
                      simp [chHex_hexCh _ hhi, chHex_hexCh _ hlo, ih,
                        show chHex '0' = some 0 from rfl]
                      have hval : c.toNat / 16 * 16 + c.toNat % 16 = c.toNat := by
                        omega
                      rw [hval, Char.ofNat_toNat]
                    · rw [escChar]
                      simp only [h1, h2, h3, h4, h5, h6, h7, h8, if_false,
                        List.cons_append, List.nil_append]
                      rw [parseStr.eq_def]
                      simp [h1, h2, h8, ih]

theorem leadOK_facts (c : Char) (h : leadOK c = true) :
    jsWs c = false ∧ c ≠ ']' ∧ c ≠ '\x7d' := by
  simp only [leadOK, Bool.or_eq_true, decide_eq_true_eq] at h
  rcases h with ((((((rfl | rfl) | rfl) | rfl) | rfl) | rfl) | rfl) | hd
  · exact ⟨rfl, by decide, by decide⟩
  · exact ⟨rfl, by decide, by decide⟩
  · exact ⟨rfl, by decide, by decide⟩
  · exact ⟨rfl, by decide, by decide⟩
  · exact ⟨rfl, by decide, by decide⟩
  · exact ⟨rfl, by decide, by decide⟩
  · exact ⟨rfl, by decide, by decide⟩
  · obtain ⟨d, hd'⟩ := Option.isSome_iff_exists.mp hd
    obtain ⟨hw, h1, h2, _⟩ := chDigit_lead c d hd'
    exact ⟨hw, h1, h2⟩

theorem dumpVal_head (ind : Nat) (v : Json) :
    ∃ c t, dumpVal ind v = c :: t ∧ leadOK c = true := by
  cases v with
  | null => exact ⟨'n', _, rfl, by decide⟩
  | bool b =>
      cases b with
      | false => exact ⟨'f', _, rfl, by decide⟩
      | true => exact ⟨'t', _, rfl, by decide⟩
  | num n =>
      by_cases hn : n < 0
      · exact ⟨'-', natDigs n.natAbs, by simp [dumpVal, intChars, hn], by decide⟩
      · obtain ⟨ha, hne, _⟩ := natDigsAux_spec (n.natAbs + 1) n.natAbs (by omega)
        have hd : dumpVal ind (.num n) = natDigs n.natAbs := by
          simp [dumpVal, intChars, hn]
        cases hds : natDigs n.natAbs with
        | nil => exact absurd hds hne
        | cons c t =>
            have ha' : allDigits (natDigs n.natAbs) = true := ha
            rw [hds] at ha'
            simp only [allDigits, Bool.and_eq_true] at ha'
            refine ⟨c, t, ?_, ?_⟩
            · rw [hd, hds]
            · simp [leadOK, ha'.1]
  | str s => exact ⟨'\"', _, rfl, by decide⟩
  | arr xs =>
      cases xs with
      | nil => exact ⟨'[', _, rfl, by decide⟩
      | cons x xs' => exact ⟨'[', _, rfl, by decide⟩
  | obj ms =>
      cases ms with
      | nil => exact ⟨'\x7b', _, rfl, by decide⟩
      | cons p ps => exact ⟨'\x7b', _, rfl, by decide⟩

theorem keyIn_append (k : String) (xs ys : List String) :
    keyIn k (xs ++ ys) = (keyIn k xs || keyIn k ys) := by
  induction xs with
  | nil => simp [keyIn]
  | cons x xs ih => simp [keyIn, ih, Bool.or_assoc]

theorem keyIn_of_mem (p : String × Json) (ps : List (String × Json))
    (h : p ∈ ps) : keyIn p.1 (keysOf ps) = true := by
  induction ps with
  | nil => simp at h
  | cons q ps ih =>
      rcases List.mem_cons.mp h with rfl | h'
      · simp [keysOf, keyIn]
      · simp only [keysOf, List.map_cons, keyIn, Bool.or_eq_true,
          decide_eq_true_eq]
        exact Or.inr (ih h')

theorem alSet_append (m : List (String × Json)) (k : String) (v : Json)
    (h : keyIn k (keysOf m) = false) : alSet m k v = m ++ [(k, v)] := by
  induction m with
  | nil => rfl
  | cons p m ih =>
      simp only [keysOf, List.map_cons, keyIn, Bool.or_eq_false_iff,
        decide_eq_false_iff_not] at h
      obtain ⟨h1, h2⟩ := h
      have h1' : ¬p.1 = k := fun e => h1 e.symm
      obtain ⟨pk, pv⟩ := p
      simp only [alSet, h1', if_false, List.cons_append]
      rw [ih h2]

theorem foldl_alSet_append (ps : List (String × Json)) :
    ∀ acc, nodupKeys (keysOf ps) = true →
      (∀ p ∈ ps, keyIn p.1 (keysOf acc) = false) →
      ps.foldl (fun m p => alSet m p.1 p.2) acc = acc ++ ps := by
  induction ps with
  | nil =>
      intro acc _ _
      simp
  | cons q ps ih =>
      intro acc hnd hdisj
      obtain ⟨qk, qv⟩ := q
      simp only [keysOf, List.map_cons, nodupKeys, Bool.and_eq_true,
        Bool.not_eq_true'] at hnd
      rw [List.foldl_cons]
      rw [show alSet acc (qk, qv).1 (qk, qv).2 = alSet acc qk qv from rfl]
      rw [alSet_append acc qk qv (hdisj (qk, qv) (List.mem_cons_self _ _))]
      rw [ih (acc ++ [(qk, qv)]) hnd.2 ?_]
      · simp
      · intro p hp
        have h1 : keyIn p.1 (keysOf acc) = false :=
          hdisj p (List.mem_cons_of_mem _ hp)
        have h2 : ¬p.1 = qk := by
          intro he
          have hm := keyIn_of_mem p ps hp
          rw [he] at hm
          rw [show keysOf ps = List.map Prod.fst ps from rfl] at hm
          rw [hm] at hnd
          simp at hnd
        have hk : keysOf (acc ++ [(qk, qv)]) = keysOf acc ++ [qk] := by
          simp [keysOf]
        rw [hk, keyIn_append, h1]
        simp [keyIn, h2]

theorem buildObj_nodup (ms : List (String × Json))
    (h : nodupKeys (keysOf ms) = true) : buildObj ms = ms := by
  unfold buildObj
  rw [foldl_alSet_append ms [] h (fun p _ => rfl)]
  simp

theorem jsizeV_pos (v : Json) : 1 ≤ jsizeV v := by
  cases v <;> simp [jsizeV]

mutual

theorem jsize_le_dumpV (v : Json) (ind : Nat) :
    jsizeV v ≤ (dumpVal ind v).length + 1 := by
  cases v with
  | null => simp [jsizeV, dumpVal]
  | bool b => cases b <;> simp [jsizeV, dumpVal]
  | num n => simp [jsizeV]
  | str s => simp [jsizeV]
  | arr xs =>
      cases xs with
      | nil => simp [jsizeV, jsizeL, dumpVal]
      | cons x xs' =>
          have h1 := jsize_le_dumpV x (ind + 2)
          have h2 := jsize_le_dumpL xs' (ind + 2)
          simp only [jsizeV, jsizeL, dumpVal, List.length_cons,
            List.length_append]
          omega
  | obj ms =>
      cases ms with
      | nil => simp [jsizeV, jsizeM, dumpVal]
      | cons p ps =>
          obtain ⟨pk, pv⟩ := p
          have h1 := jsize_le_dumpV pv (ind + 2)
          have h2 := jsize_le_dumpM ps (ind + 2)
          simp only [jsizeV, jsizeM, dumpVal, dumpPair, List.length_cons,
            List.length_append]
          omega

theorem jsize_le_dumpL (xs : List Json) (ind : Nat) :
    jsizeL xs ≤ (dumpElems ind xs).length + 1 := by
  cases xs with
  | nil => simp [jsizeL, dumpElems]
  | cons x xs' =>
      have h1 := jsize_le_dumpV x ind
      have h2 := jsize_le_dumpL xs' ind
      simp only [jsizeL, dumpElems, List.length_cons, List.length_append]
      omega

theorem jsize_le_dumpM (ps : List (String × Json)) (ind : Nat) :
    jsizeM ps ≤ (dumpMembers ind ps).length + 1 := by
  cases ps with
  | nil => simp [jsizeM, dumpMembers]
  | cons p ps' =>
      obtain ⟨pk, pv⟩ := p
      have h1 := jsize_le_dumpV pv ind
      have h2 := jsize_le_dumpM ps' ind
      simp only [jsizeM, dumpMembers, dumpPair, List.length_cons,
        List.length_append]
      omega

end

theorem skipWs_pre (pre : List Char) (c : Char) (t : List Char)
    (hpre : allWsL pre = true) (hc : jsWs c = false) :
    skipWs (pre ++ c :: t) = c :: t := by
  rw [skipWs_allWs pre _ hpre, skipWs_nonWs _ _ hc]

theorem skipWs_indent (n : Nat) (l : List Char) :
    skipWs ('\n' :: (spaces n ++ l)) = skipWs l := by
  rw [show skipWs ('\n' :: (spaces n ++ l)) = skipWs (spaces n ++ l) by
    simp [skipWs, jsWs]]
  exact skipWs_allWs _ _ (allWsL_spaces n)

theorem strMkData (s : String) : String.mk s.data = s := rfl

theorem jsizeL_pos (xs : List Json) : 1 ≤ jsizeL xs := by
  cases xs <;> simp [jsizeL] <;> omega

theorem jsizeM_pos (ps : List (String × Json)) : 1 ≤ jsizeM ps := by
  cases ps <;> simp [jsizeM] <;> omega

theorem allWsL_indent (n : Nat) : allWsL ('\n' :: spaces n) = true := by
  simp [allWsL, jsWs, allWsL_spaces]

theorem parseVal_pre (fuel : Nat) (pre l : List Char)
    (hpre : allWsL pre = true) :
    parseVal fuel (pre ++ l) = parseVal fuel l := by
  cases fuel with
  | zero => rfl
  | succ fuel =>
      rw [parseVal.eq_def, parseVal.eq_def]
      simp only [skipWs_allWs pre l hpre]

theorem parsePairs_pre (fuel : Nat) (pre l : List Char)
    (hpre : allWsL pre = true) :
    parsePairs fuel (pre ++ l) = parsePairs fuel l := by
  cases fuel with
  | zero => rfl
  | succ fuel =>
      rw [parsePairs.eq_def, parsePairs.eq_def]
      simp only [skipWs_allWs pre l hpre]

theorem parseVal_null (fuel : Nat) (r : List Char) :
    parseVal (fuel + 1) ('n' :: 'u' :: 'l' :: 'l' :: r) = some (.null, r) := by
  rw [parseVal.eq_def]
  simp [skipWs, jsWs]

theorem parseVal_true (fuel : Nat) (r : List Char) :
    parseVal (fuel + 1) ('t' :: 'r' :: 'u' :: 'e' :: r) =
      some (.bool true, r) := by
  rw [parseVal.eq_def]
  simp [skipWs, jsWs]

theorem parseVal_false (fuel : Nat) (r : List Char) :
    parseVal (fuel + 1) ('f' :: 'a' :: 'l' :: 's' :: 'e' :: r) =
      some (.bool false, r) := by
  rw [parseVal.eq_def]
  simp [skipWs, jsWs]

theorem parseVal_str (fuel : Nat) (body r s : List Char)
    (hps : parseStr body = some (s, r)) :
    parseVal (fuel + 1) ('\"' :: body) = some (.str (String.mk s), r) := by
  rw [parseVal.eq_def]
  simp [skipWs, jsWs, hps]

theorem parseVal_neg (fuel : Nat) (t r : List Char) (m : Nat)
    (hnum : parseNum t = some (m, r)) :
    parseVal (fuel + 1) ('-' :: t) = some (.num (-(m : Int)), r) := by
  rw [parseVal.eq_def]
  simp [skipWs, jsWs, hnum]

theorem parseVal_digit (fuel : Nat) (c : Char) (d : Nat) (t r : List Char)
    (hcd : chDigit c = some d) (m : Nat)
    (hnum : parseNum (c :: t) = some (m, r)) :
    parseVal (fuel + 1) (c :: t) = some (.num (m : Int), r) := by
  obtain ⟨hws, _, _, hc1, hc2, hc3, hc4, hc5, hc6, hc7, _, _⟩ :=
    chDigit_lead c d hcd
  rw [parseVal.eq_def]
  simp only [skipWs_nonWs c t hws, hc1, hc2, hc3, hc4, hc5, hc6, hc7,
    if_false, hcd, hnum]

theorem parseVal_arr_nil (fuel : Nat) (r : List Char) :
    parseVal (fuel + 1) ('[' :: ']' :: r) = some (.arr [], r) := by
  rw [parseVal.eq_def]
  simp [skipWs, jsWs]

theorem parseVal_obj_nil (fuel : Nat) (r : List Char) :
    parseVal (fuel + 1) ('\x7b' :: '\x7d' :: r) = some (.obj [], r) := by
  rw [parseVal.eq_def]
  simp [skipWs, jsWs]

theorem parseVal_arr_go (fuel : Nat) (l r : List Char) (c0 : Char)
    (t0 : List Char) (hsk : skipWs l = c0 :: t0) (hc0 : c0 ≠ ']')
    (vs : List Json) (hitems : parseItems fuel l = some (vs, r)) :
    parseVal (fuel + 1) ('[' :: l) = some (.arr vs, r) := by
  rw [parseVal.eq_def]
  simp only [skipWs_nonWs '[' l (by decide), hsk]
  simp [hc0, hitems]

theorem parseVal_obj_go (fuel : Nat) (l r : List Char) (c0 : Char)
    (t0 : List Char) (hsk : skipWs l = c0 :: t0) (hc0 : c0 ≠ '\x7d')
    (ps : List (String × Json)) (hpairs : parsePairs fuel l = some (ps, r)) :
    parseVal (fuel + 1) ('\x7b' :: l) = some (.obj (buildObj ps), r) := by
  rw [parseVal.eq_def]
  simp only [skipWs_nonWs '\x7b' l (by decide), hsk]
  simp [hc0, hpairs]

theorem parseItems_last (fuel : Nat) (l rv r : List Char) (v : Json)
    (hv : parseVal fuel l = some (v, rv)) (hsk : skipWs rv = ']' :: r) :
    parseItems (fuel + 1) l = some ([v], r) := by
  rw [parseItems.eq_def]
  simp [hv, hsk]

theorem parseItems_more (fuel : Nat) (l rv r2 r : List Char) (v : Json)
    (vs : List Json) (hv : parseVal fuel l = some (v, rv))
    (hsk : skipWs rv = ',' :: r2)
    (hrest : parseItems fuel r2 = some (vs, r)) :
    parseItems (fuel + 1) l = some (v :: vs, r) := by
  rw [parseItems.eq_def]
  simp [hv, hsk, hrest]

theorem parsePairs_last (fuel : Nat) (body r1 r2 rv r ks : List Char) (v : Json)
    (hps : parseStr body = some (ks, r1)) (h1 : skipWs r1 = ':' :: r2)
    (hv : parseVal fuel r2 = some (v, rv)) (h2 : skipWs rv = '\x7d' :: r) :
    parsePairs (fuel + 1) ('\"' :: body) = some ([(String.mk ks, v)], r) := by
  rw [parsePairs.eq_def]
  simp [skipWs_nonWs '\"' body (by decide), hps, h1, hv, h2]

theorem parsePairs_more (fuel : Nat) (body r1 r2 rv r4 r ks : List Char)
    (v : Json) (ps : List (String × Json))
    (hps : parseStr body = some (ks, r1)) (h1 : skipWs r1 = ':' :: r2)
    (hv : parseVal fuel r2 = some (v, rv)) (h2 : skipWs rv = ',' :: r4)
    (hrest : parsePairs fuel r4 = some (ps, r)) :
    parsePairs (fuel + 1) ('\"' :: body) =
      some ((String.mk ks, v) :: ps, r) := by
  rw [parsePairs.eq_def]
  simp [skipWs_nonWs '\"' body (by decide), hps, h1, hv, h2, hrest]

theorem pdTriple (fuel : Nat) :
    (∀ v ind pre rest, allWsL pre = true → wfV v = true → jsizeV v ≤ fuel →
      stopOK rest = true →
      parseVal fuel (pre ++ dumpVal ind v ++ rest) = some (v, rest)) ∧
    (∀ x xs ind cl pre rest, allWsL pre = true → wfV x = true →
      wfL xs = true → 1 + jsizeV x + jsizeL xs ≤ fuel → stopOK rest = true →
      parseItems fuel (pre ++ dumpVal ind x ++ dumpElems ind xs ++
        '\n' :: (spaces cl ++ ']' :: rest)) = some (x :: xs, rest)) ∧
    (∀ kv ps ind cl pre rest, allWsL pre = true → wfV kv.2 = true →
      wfM ps = true → 1 + jsizeV kv.2 + jsizeM ps ≤ fuel → stopOK rest = true →
      parsePairs fuel (pre ++ dumpPair ind kv ++ dumpMembers ind ps ++
        '\n' :: (spaces cl ++ '\x7d' :: rest)) = some (kv :: ps, rest)) := by
  induction fuel with
  | zero =>
      refine ⟨?_, ?_, ?_⟩
      · intro v _ _ _ _ _ hsz _
        have := jsizeV_pos v
        omega
      · intro x xs _ _ _ _ _ _ _ hsz _
        have := jsizeV_pos x
        omega
      · intro kv ps _ _ _ _ _ _ _ hsz _
        have := jsizeV_pos kv.2
        omega
  | succ fuel ih =>
      obtain ⟨ihV, ihI, ihP⟩ := ih
      refine ⟨?_, ?_, ?_⟩
      · intro v ind pre rest hpre hwf hsz hstop
        cases v with
        | null =>
            rw [show dumpVal ind Json.null = ['n', 'u', 'l', 'l'] from rfl]
            rw [List.append_assoc, parseVal_pre _ _ _ hpre]
            exact parseVal_null fuel rest
        | bool b =>
            cases b with
            | true =>
                rw [show dumpVal ind (Json.bool true) = ['t', 'r', 'u', 'e']
                  from rfl]
                rw [List.append_assoc, parseVal_pre _ _ _ hpre]
                exact parseVal_true fuel rest
            | false =>
                rw [show dumpVal ind (Json.bool false) =
                  ['f', 'a', 'l', 's', 'e'] from rfl]
                rw [List.append_assoc, parseVal_pre _ _ _ hpre]
                exact parseVal_false fuel rest
        | str s =>
            rw [show dumpVal ind (Json.str s) =
              '\"' :: (escStr s.data ++ ['\"']) from rfl]
            simp only [List.append_assoc, List.cons_append, List.nil_append]
            rw [parseVal_pre _ _ _ hpre]
            exact parseVal_str fuel (escStr s.data ++ '\"' :: rest) rest s.data
              (parseStr_escStr s.data rest)
        | num n =>
            by_cases hn : n < 0
            · rw [show dumpVal ind (Json.num n) = '-' :: natDigs n.natAbs by
                simp [dumpVal, intChars, hn]]
              simp only [List.append_assoc, List.cons_append]
              rw [parseVal_pre _ _ _ hpre]
              have h := parseVal_neg fuel (natDigs n.natAbs ++ rest) rest
                n.natAbs (parseNum_natDigs n.natAbs rest hstop)
              rw [h]
              have he : (-(n.natAbs : Int)) = n := by omega
              rw [he]
            · rw [show dumpVal ind (Json.num n) = natDigs n.natAbs by
                simp [dumpVal, intChars, hn]]
              obtain ⟨ha, hne, _⟩ :=
                natDigsAux_spec (n.natAbs + 1) n.natAbs (by omega)
              have ha' : allDigits (natDigs n.natAbs) = true := ha
              have hne' : natDigs n.natAbs ≠ [] := hne
              cases hds : natDigs n.natAbs with
              | nil => exact absurd hds hne'
              | cons c t =>
                  rw [hds] at ha'
                  simp only [allDigits, Bool.and_eq_true,
                    Option.isSome_iff_exists] at ha'
                  obtain ⟨⟨d, hcd⟩, _⟩ := ha'
                  simp only [List.append_assoc, List.cons_append]
                  rw [parseVal_pre _ _ _ hpre]
                  have hnum : parseNum (c :: (t ++ rest)) =
                      some (n.natAbs, rest) := by
                    rw [show (c :: (t ++ rest)) = (c :: t) ++ rest from rfl,
                      ← hds]
                    exact parseNum_natDigs n.natAbs rest hstop
                  rw [parseVal_digit fuel c d (t ++ rest) rest hcd n.natAbs hnum]
                  have he : ((n.natAbs : Int)) = n := by omega
                  rw [he]
        | arr xs =>
            cases xs with
            | nil =>
                rw [show dumpVal ind (Json.arr []) = ['[', ']'] from rfl]
                rw [List.append_assoc, parseVal_pre _ _ _ hpre]
                exact parseVal_arr_nil fuel rest
            | cons x xs' =>
                simp only [wfV, wfL, Bool.and_eq_true] at hwf
                simp only [jsizeV, jsizeL] at hsz
                have hszi : 1 + jsizeV x + jsizeL xs' ≤ fuel := by omega
                rw [show dumpVal ind (Json.arr (x :: xs')) = '[' :: '\n' ::
                  (spaces (ind + 2) ++ dumpVal (ind + 2) x ++
                    dumpElems (ind + 2) xs' ++ '\n' :: (spaces ind ++ [']']))
                  from rfl]
                simp only [List.append_assoc, List.cons_append, List.nil_append]
                rw [parseVal_pre _ _ _ hpre]
                obtain ⟨c0, t0, hd0, hl0⟩ := dumpVal_head (ind + 2) x
                obtain ⟨hw0, hne0, _⟩ := leadOK_facts c0 hl0
                refine parseVal_arr_go fuel _ rest c0
                  (t0 ++ (dumpElems (ind + 2) xs' ++
                    ('\n' :: (spaces ind ++ ']' :: rest)))) ?_ hne0 (x :: xs') ?_
                · rw [skipWs_indent, hd0, List.cons_append]
                  exact skipWs_nonWs _ _ hw0
                · have hitems := ihI x xs' (ind + 2) ind
                    ('\n' :: spaces (ind + 2)) rest (allWsL_indent (ind + 2))
                    hwf.1 hwf.2 hszi hstop
                  simpa [List.append_assoc] using hitems
        | obj ms =>
            cases ms with
            | nil =>
                rw [show dumpVal ind (Json.obj []) = ['\x7b', '\x7d'] from rfl]
                rw [List.append_assoc, parseVal_pre _ _ _ hpre]
                exact parseVal_obj_nil fuel rest
            | cons p ps =>
                obtain ⟨pk, pv⟩ := p
                simp only [wfV, Bool.and_eq_true] at hwf
                have hwm := hwf.2
                simp only [wfM, Bool.and_eq_true] at hwm
                simp only [jsizeV, jsizeM] at hsz
                have hszi : 1 + jsizeV (pk, pv).2 + jsizeM ps ≤ fuel := by
                  dsimp only
                  omega
                rw [show dumpVal ind (Json.obj ((pk, pv) :: ps)) =
                  '\x7b' :: '\n' :: (spaces (ind + 2) ++
                    dumpPair (ind + 2) (pk, pv) ++ dumpMembers (ind + 2) ps ++
                    '\n' :: (spaces ind ++ ['\x7d'])) from rfl]
                simp only [List.append_assoc, List.cons_append, List.nil_append]
                rw [parseVal_pre _ _ _ hpre]
                have hpairs : parsePairs fuel ('\n' :: (spaces (ind + 2) ++
                    (dumpPair (ind + 2) (pk, pv) ++ (dumpMembers (ind + 2) ps ++
                      ('\n' :: (spaces ind ++ '\x7d' :: rest)))))) =
                    some ((pk, pv) :: ps, rest) := by
                  have h := ihP (pk, pv) ps (ind + 2) ind
                    ('\n' :: spaces (ind + 2)) rest (allWsL_indent (ind + 2))
                    hwm.1 hwm.2 hszi hstop
                  simpa [List.append_assoc] using h
                have hgo := parseVal_obj_go fuel
                  ('\n' :: (spaces (ind + 2) ++ (dumpPair (ind + 2) (pk, pv) ++
                    (dumpMembers (ind + 2) ps ++
                      ('\n' :: (spaces ind ++ '\x7d' :: rest)))))) rest '\"'
                  ((escStr pk.data ++ '\"' :: ':' :: ' ' ::
                    dumpVal (ind + 2) pv) ++ (dumpMembers (ind + 2) ps ++
                      ('\n' :: (spaces ind ++ '\x7d' :: rest))))
                  (by
                    rw [skipWs_indent]
                    exact skipWs_nonWs _ _ (by decide))
                  (by decide) ((pk, pv) :: ps) hpairs
                rw [buildObj_nodup ((pk, pv) :: ps) hwf.1] at hgo
                exact hgo
      · intro x xs ind cl pre rest hpre hwx hwxs hsz hstop
        have hjl := jsizeL_pos xs
        have hjx : jsizeV x ≤ fuel := by omega
        cases xs with
        | nil =>
            have hv := ihV x ind pre ('\n' :: (spaces cl ++ ']' :: rest)) hpre
              hwx hjx (by rfl)
            refine parseItems_last fuel _ ('\n' :: (spaces cl ++ ']' :: rest))
              rest x ?_ ?_
            · simpa [dumpElems] using hv
            · rw [skipWs_indent]
              exact skipWs_nonWs _ _ (by decide)
        | cons y ys =>
            simp only [wfL, Bool.and_eq_true] at hwxs
            simp only [jsizeL] at hsz
            have hvx := jsizeV_pos x
            have hszi : 1 + jsizeV y + jsizeL ys ≤ fuel := by omega
            have hv := ihV x ind pre (dumpElems ind (y :: ys) ++
              '\n' :: (spaces cl ++ ']' :: rest)) hpre hwx hjx (by rfl)
            refine parseItems_more fuel _
              (dumpElems ind (y :: ys) ++ '\n' :: (spaces cl ++ ']' :: rest))
              ('\n' :: ((spaces ind ++ dumpVal ind y ++ dumpElems ind ys) ++
                ('\n' :: (spaces cl ++ ']' :: rest))))
              rest x (y :: ys) ?_ ?_ ?_
            · simpa [List.append_assoc] using hv
            · exact skipWs_nonWs _ _ (by decide)
            · have hitems := ihI y ys ind cl ('\n' :: spaces ind) rest
                (allWsL_indent ind) hwxs.1 hwxs.2 hszi hstop
              simpa [List.append_assoc] using hitems
      · intro kv ps ind cl pre rest hpre hwv hwps hsz hstop
        obtain ⟨k, v⟩ := kv
        dsimp only at hwv hsz
        have hjm := jsizeM_pos ps
        have hjv : jsizeV v ≤ fuel := by omega
        rw [show dumpPair ind (k, v) = '\"' ::
          (escStr k.data ++ '\"' :: ':' :: ' ' :: dumpVal ind v) from rfl]
        simp only [List.append_assoc, List.cons_append, List.nil_append]
        rw [parsePairs_pre _ _ _ hpre]
        cases ps with
        | nil =>
            have hv := ihV v ind [' '] ('\n' :: (spaces cl ++ '\x7d' :: rest))
              (by decide) hwv hjv (by rfl)
            have hlast := parsePairs_last fuel
              (escStr k.data ++ '\"' :: ':' :: ' ' ::
                (dumpVal ind v ++ ('\n' :: (spaces cl ++ '\x7d' :: rest))))
              (':' :: ' ' ::
                (dumpVal ind v ++ ('\n' :: (spaces cl ++ '\x7d' :: rest))))
              (' ' :: (dumpVal ind v ++ ('\n' :: (spaces cl ++ '\x7d' :: rest))))
              ('\n' :: (spaces cl ++ '\x7d' :: rest)) rest k.data v
              (parseStr_escStr k.data _) (skipWs_nonWs _ _ (by decide)) hv
              (by
                rw [skipWs_indent]
                exact skipWs_nonWs _ _ (by decide))
            simpa [dumpMembers, strMkData] using hlast
        | cons q qs =>
            simp only [wfM, Bool.and_eq_true] at hwps
            simp only [jsizeM] at hsz
            have hvv := jsizeV_pos v
            have hszi : 1 + jsizeV q.2 + jsizeM qs ≤ fuel := by omega
            have hv := ihV v ind [' '] (dumpMembers ind (q :: qs) ++
              '\n' :: (spaces cl ++ '\x7d' :: rest)) (by decide) hwv hjv (by rfl)
            have hpq := ihP q qs ind cl ('\n' :: spaces ind) rest
              (allWsL_indent ind) hwps.1 hwps.2 hszi hstop
            have hmore := parsePairs_more fuel
              (escStr k.data ++ '\"' :: ':' :: ' ' :: (dumpVal ind v ++
                (dumpMembers ind (q :: qs) ++
                  '\n' :: (spaces cl ++ '\x7d' :: rest))))
              (':' :: ' ' :: (dumpVal ind v ++ (dumpMembers ind (q :: qs) ++
                '\n' :: (spaces cl ++ '\x7d' :: rest))))
              (' ' :: (dumpVal ind v ++ (dumpMembers ind (q :: qs) ++
                '\n' :: (spaces cl ++ '\x7d' :: rest))))
              (dumpMembers ind (q :: qs) ++
                '\n' :: (spaces cl ++ '\x7d' :: rest))
              ('\n' :: ((spaces ind ++ dumpPair ind q ++ dumpMembers ind qs) ++
                ('\n' :: (spaces cl ++ '\x7d' :: rest))))
              rest k.data v (q :: qs)
              (parseStr_escStr k.data _) (skipWs_nonWs _ _ (by decide)) hv
              (skipWs_nonWs _ _ (by decide))
              (by simpa [List.append_assoc] using hpq)
            simpa [strMkData] using hmore

/-- C8: serializing a well-formed patched document with the writer's
encoder (the `json.dump(..., indent=2, ensure_ascii=False)` model) and
parsing the written bytes back with the `json.load` model yields the
identical in-memory document.  JSON numbers are modelled as
arbitrary-precision integers; well-formedness (pairwise-distinct keys in
every object node) holds for every document `json.load` can produce. -/
theorem C8_roundtrip (v : Json) (h : wfV v = true) :
    write_output_file true v = some (dumpVal 0 v) ∧
    parseTop (dumpVal 0 v) = some v := by
  refine ⟨rfl, ?_⟩
  unfold parseTop
  have hp := (pdTriple ((dumpVal 0 v).length + 1)).1 v 0 [] [] rfl h
    (by have := jsize_le_dumpV v 0; omega) rfl
  simp only [List.nil_append, List.append_nil] at hp
  rw [hp]
  simp [skipWs]

/-- C8 witness: the round trip at a concrete document exercising nested
objects and arrays, escapes, control and non-ASCII characters, negative
and zero numbers, empty containers and the empty string. -/
theorem C8_witness :
    wfV vEx8 = true ∧
    (write_output_file true vEx8 = some (dumpVal 0 vEx8) ∧
      parseTop (dumpVal 0 vEx8) = some vEx8) :=
  ⟨rfl, C8_roundtrip vEx8 rfl⟩
